import Mathlib

/-!
Verification of the VoynichDecoder search engine against its specification.

Each C++ function relevant to the checked claims is embedded as an
executable Lean definition operating on `Nat`/`Int`/`List`, with machine
integer wraparound made explicit as `% 2^64` (resp. `% 2^32`) exactly where
the C++ types would wrap.
-/

namespace Voynich

/-! ### MappingGenerator: factorial and index-to-permutation decoding

`MappingGenerator::factorial` (MappingGenerator.cpp:310-317) computes the
factorial in `uint64_t` arithmetic; every multiplication wraps modulo 2^64.
(For `n ≥ 21` the true factorial exceeds 2^64, so the wrap is observable.)
-/

def factorialU64 : Nat → Nat
  | 0 => 1
  | 1 => 1
  | n + 2 => (factorialU64 (n + 1) * (n + 2)) % 2 ^ 64

/-- `MappingGenerator::TOTAL_COMBINATIONS` (MappingGenerator.h:77): the
constant `10888869450418352160ULL`, which the source comments call `27!`. -/
def TOTAL_COMBINATIONS : Nat := 10888869450418352160

/-- The loop body of `MappingGenerator::indexToPermutation`
(MappingGenerator.cpp:283-308): `pos` counts the remaining loop iterations
(the C++ `position` running from 27 down to 1), `available` is the vector of
still-unused symbols and `remaining` the current residue.  Each iteration
divides by `factorial(position-1)`, clamps the chosen index into range,
emits `available[chosen]` and erases it.  (The C++ `static_cast<int>` of the
quotient is lossless here: for every `uint64_t` input the quotient stays far
below 2^31, as the clamp bound proved below shows.) -/
def indexToPermAux : Nat → List Nat → Nat → List Nat
  | 0, _, _ => []
  | pos + 1, available, remaining =>
    let f := factorialU64 pos
    let chosen := remaining / f
    let chosen := if available.length ≤ chosen then available.length - 1 else chosen
    available.getD chosen 0 :: indexToPermAux pos (available.eraseIdx chosen) (remaining % f)

/-- `MappingGenerator::indexToPermutation` (MappingGenerator.cpp:283-308). -/
def indexToPermutation (index : Nat) : List Nat :=
  indexToPermAux 27 (List.range 27) index

/-- Inverse reading of the decode loop, used to establish injectivity: at
each step it recovers the factorial-base digit as the position of the next
output symbol in `available` and rebuilds the residue. -/
def permToIndexAux : Nat → List Nat → List Nat → Nat
  | 0, _, _ => 0
  | _ + 1, _, [] => 0
  | pos + 1, available, x :: rest =>
    let f := factorialU64 pos
    let d := available.indexOf x
    d * f + permToIndexAux pos (available.eraseIdx d) rest

/-- The condition that the defensive clamp in `indexToPermutation` never
fires during the `n` remaining iterations on residue `r` (the available list
has `n` elements left at that point). -/
def noClamp : Nat → Nat → Prop
  | 0, r => r = 0
  | pos + 1, r => r / factorialU64 pos < pos + 1 ∧ noClamp pos (r % factorialU64 pos)

/-! ### Word and WordSet (Word.cpp, WordSet.cpp)

Texts are lists of character code points (the C++ `wchar_t` values). -/

inductive Alphabet where
  | EVA
  | HEBREW
deriving DecidableEq, Repr

/-- `Word::evaAlphabet` (Word.cpp:4-9): code point ↦ alphabet index. -/
def evaAlphabet : List (Nat × Nat) :=
  [(97, 0), (98, 1), (99, 2), (100, 3), (101, 4), (102, 5), (103, 6),
   (104, 7), (105, 8), (106, 9), (107, 10), (108, 11), (109, 12), (110, 13),
   (111, 14), (112, 15), (113, 16), (114, 17), (115, 18), (116, 19), (117, 20),
   (118, 21), (119, 22), (120, 23), (121, 24), (122, 25), (32, 26)]

/-- `Word::hebrewAlphabet` (Word.cpp:12-17): code point ↦ alphabet index. -/
def hebrewAlphabet : List (Nat × Nat) :=
  [(0x05D0, 0), (0x05D1, 1), (0x05D2, 2), (0x05D3, 3), (0x05D4, 4), (0x05D5, 5), (0x05D6, 6),
   (0x05D7, 7), (0x05D8, 8), (0x05D9, 9), (0x05DB, 10), (0x05DC, 11), (0x05DE, 12), (0x05E0, 13),
   (0x05E1, 14), (0x05E2, 15), (0x05E4, 16), (0x05E6, 17), (0x05E7, 18), (0x05E8, 19), (0x05E9, 20),
   (0x05EA, 21), (0x05DA, 22), (0x05DD, 23), (0x05DF, 24), (0x05E3, 25), (0x05E5, 26)]

def alphabetTable : Alphabet → List (Nat × Nat)
  | Alphabet.EVA => evaAlphabet
  | Alphabet.HEBREW => hebrewAlphabet

/-- `Word::generateBinaryMatrix` (Word.cpp:19-30): start from 27 zeros and,
for each character of the text found in the alphabet table, set the bit at
its index (characters not in the table are ignored). -/
def generateBinaryMatrix (alphabet : Alphabet) (text : List Nat) : List Nat :=
  text.foldl
    (fun m c =>
      match (alphabetTable alphabet).lookup c with
      | some i => m.set i 1
      | none => m)
    (List.replicate 27 0)

/-- `Word` (Word.h): text, alphabet, and the derived presence vector. -/
structure Word where
  text : List Nat
  alphabet : Alphabet
deriving DecidableEq, Repr

def Word.binaryMatrix (w : Word) : List Nat :=
  generateBinaryMatrix w.alphabet w.text

/-- `WordSet::readFromFile` (WordSet.cpp:11-28), with the file already split
into lines: every non-empty line becomes a `Word`; nothing else is
filtered. -/
def readFromLines (lines : List (List Nat)) (alphabet : Alphabet) : List Word :=
  (lines.filter (fun l => !l.isEmpty)).map (fun l => Word.mk l alphabet)

/-! ### Mapping (Mapping.cpp) and mapping construction
(MappingGenerator.cpp)

A mapping matrix is a 27×27 list of lists of 0/1 ints, row-major as in
`Mapping::mappingMatrix`. -/

def matEntry (M : List (List Nat)) (i j : Nat) : Nat :=
  (M.getD i []).getD j 0

def zeroMatrix27 : List (List Nat) :=
  List.replicate 27 (List.replicate 27 0)

/-- `Mapping::setMapping` (Mapping.cpp:183-187): write a 1 at `[i][j]` when
both indices are in `[0, 27)` (negative values cannot arise here since the
embedding uses `Nat`). -/
def setMapping (M : List (List Nat)) (i j : Nat) : List (List Nat) :=
  if i < 27 ∧ j < 27 then M.set i ((M.getD i []).set j 1) else M

/-- The matrix built by `MappingGenerator::generateSingleMapping`
(MappingGenerator.cpp:250-281) from a permutation vector: starting from the
zero matrix of a fresh `Mapping`, for each `i < min(27, |perm|)` with
`perm[i] < 27` (the Hebrew alphabet size) call `setMapping(i, perm[i])`. -/
def mappingFromPermutation (p : List Nat) : List (List Nat) :=
  (List.range (min 27 p.length)).foldl
    (fun M i => if p.getD i 0 < 27 then setMapping M i (p.getD i 0) else M)
    zeroMatrix27

/-- `Mapping::applyMapping` (Mapping.cpp:103-122): a 27-length input is
required (otherwise all zeros are returned); `result[j]` is set to 1 as soon
as some `i` has both `input[i]` and `matrix[i][j]` nonzero. -/
def applyMapping (input : List Nat) (M : List (List Nat)) : List Nat :=
  if input.length ≠ 27 then List.replicate 27 0
  else
    (List.range 27).map fun j =>
      if (List.range 27).any (fun i => decide (input.getD i 0 ≠ 0) && decide (matEntry M i j ≠ 0))
      then 1 else 0

/-! ### StaticTranslator (StaticTranslator.cpp) -/

/-- One output entry of `StaticTranslator::matrixMultiplyBatch`
(StaticTranslator.cpp:168-203): the inner product `Σ_k inputRow[k] &
transformMatrix[k][j]` (the 4-way unrolling in the source is just this sum
reassociated), collapsed to 1 when nonzero. -/
def batchEntry (row : List Nat) (M : List (List Nat)) (j : Nat) : Nat :=
  if 0 < ((List.range 27).map fun k => Nat.land (row.getD k 0) (matEntry M k j)).sum
  then 1 else 0

/-- `StaticTranslator::matrixMultiplyBatch` over all rows, as called from
`performMatrixMultiplicationCpu` (StaticTranslator.cpp:157-163) with
`startRow = 0`, `endRow = N`. -/
def matrixMultiplyBatch (input : List (List Nat)) (M : List (List Nat)) : List (List Nat) :=
  input.map fun row => (List.range 27).map fun j => batchEntry row M j

/-- The character table of `StaticTranslator::binaryToHebrewText`
(StaticTranslator.cpp:110-150). -/
def hebrewChars : List Nat :=
  [0x05D0, 0x05D1, 0x05D2, 0x05D3, 0x05D4, 0x05D5, 0x05D6,
   0x05D7, 0x05D8, 0x05D9, 0x05DB, 0x05DC, 0x05DE, 0x05E0,
   0x05E1, 0x05E2, 0x05E4, 0x05E6, 0x05E7, 0x05E8, 0x05E9,
   0x05EA, 0x05DA, 0x05DD, 0x05DF, 0x05E3, 0x05E5]

/-- `StaticTranslator::binaryToHebrewText` (StaticTranslator.cpp:110-150):
emit, in index order, the Hebrew character of every set bit. -/
def binaryToHebrewText (v : List Nat) : List Nat :=
  ((List.range (min v.length 27)).filter fun i => decide (v.getD i 0 ≠ 0)).map
    fun i => hebrewChars.getD i 0

/-- `StaticTranslator::translateWordSet` (StaticTranslator.cpp:8-32):
convert the word set to its vector matrix, multiply, and rebuild a word set
via `matrixToWordSet` (StaticTranslator.cpp:84-108), which pairs original
words with result rows (stopping at the shorter of the two, here equal
lengths) and constructs a HEBREW `Word` from `binaryToHebrewText(row)`. -/
def translateWordSet (words : List Word) (M : List (List Nat)) : List Word :=
  let inputMatrix := words.map Word.binaryMatrix
  let resultMatrix := matrixMultiplyBatch inputMatrix M
  (words.zip resultMatrix).map fun wr => Word.mk (binaryToHebrewText wr.2) Alphabet.HEBREW

/-! ### HebrewValidator (HebrewValidator.cpp) -/

/-- `HebrewValidator::binaryVectorToHash` (HebrewValidator.cpp:60-72):
polynomial rolling hash over set-bit indices in wrapping `uint32_t`
arithmetic. -/
def binaryVectorToHash (v : List Nat) : Nat :=
  (List.range (min v.length 27)).foldl
    (fun h i => if v.getD i 0 ≠ 0 then (h * 31 + (i + 1)) % 2 ^ 32 else h) 0

/-- `HebrewValidator::binaryVectorToSignature` (HebrewValidator.cpp:74-97):
low bits are the presence bit pattern, the high 32 bits hold the sum of
`(i+1)²` over set bits (the `uint64_t` sum cannot wrap: it is at most
27·28² < 2^64, and the shifted value stays below 2^64). -/
def binaryVectorToSignature (v : List Nat) : Nat :=
  let bits := (List.range (min v.length 27)).foldl
    (fun s i => if v.getD i 0 ≠ 0 then s ||| (1 <<< i) else s) 0
  let weightedHash := (List.range (min v.length 27)).foldl
    (fun s i => if v.getD i 0 ≠ 0 then s + (i + 1) * (i + 1) else s) 0
  bits ||| (weightedHash <<< 32)

/-- `HebrewValidator::isValidHebrewBinaryVector` (HebrewValidator.cpp:258-275):
length 27, all entries 0/1, at least one 1. -/
def isValidHebrewBinaryVector (v : List Nat) : Bool :=
  v.length == 27 && v.all (fun b => b == 0 || b == 1) && v.any (fun b => b == 1)

/-- The hash set built by `HebrewValidator::initializeSharedLexicon`
(HebrewValidator.cpp:22-58): one `hash32` per lexicon word whose vector
passes `isValidHebrewBinaryVector` (set membership is all the `unordered_set`
is used for, so a list with `∈` models it). -/
def lexiconHashes (ws : List Word) : List Nat :=
  (ws.filter fun w => isValidHebrewBinaryVector w.binaryMatrix).map
    fun w => binaryVectorToHash w.binaryMatrix

/-- The signature set built by `HebrewValidator::initializeSharedLexicon`
(HebrewValidator.cpp:22-58). -/
def lexiconSignatures (ws : List Word) : List Nat :=
  (ws.filter fun w => isValidHebrewBinaryVector w.binaryMatrix).map
    fun w => binaryVectorToSignature w.binaryMatrix

/-- The per-word match test inside `HebrewValidator::validateTranslation`
(HebrewValidator.cpp:111-124): a word counts as matched exactly when its
vector is valid, its hash is in the hash set AND its signature is in the
signature set. -/
def matchesLexicon (hashes sigs : List Nat) (v : List Nat) : Bool :=
  isValidHebrewBinaryVector v && hashes.contains (binaryVectorToHash v)
    && sigs.contains (binaryVectorToSignature v)

/-- `HebrewValidator::ValidationResult` (HebrewValidator.h:16-24); the two
`double` fields are modelled as exact rationals. -/
structure ValidationResult where
  totalWords : Nat
  matchedWords : Nat
  matchPercentage : ℚ
  score : ℚ
  isHighScore : Bool
deriving DecidableEq, Repr

/-- `HebrewValidator::calculateScore` (HebrewValidator.cpp:151-167).  The
`std::log10` call is kept abstract as a parameter `log10` (evaluated at the
`Nat` argument `matchedWords + 1`), so the formula's structure is exact
while no floating-point transcendental is modelled. -/
def calculateScore (log10 : Nat → ℚ) (r : ValidationResult) : ℚ :=
  if r.totalWords = 0 then 0
  else
    let baseScore := r.matchPercentage
    let matchBonus := log10 (r.matchedWords + 1) * 5
    let lengthPenalty : ℚ := if r.totalWords < 10 then ((10 : ℚ) - r.totalWords) * 2 else 0
    let finalScore := baseScore + matchBonus - lengthPenalty
    max 0 (min 100 finalScore)

/-- `HebrewValidator::validateTranslation` (HebrewValidator.cpp:99-134),
with the lexicon assumed loaded (`isLexiconReady`): on an empty word set the
default-constructed result (all zeros) is returned; otherwise matched words
are counted, the percentage and score computed, and the high-score flag set
from `score >= config.scoreThreshold`. -/
def validateTranslation (log10 : Nat → ℚ) (scoreThreshold : ℚ) (hashes sigs : List Nat)
    (translated : List Word) : ValidationResult :=
  let total := translated.length
  if total = 0 then ⟨total, 0, 0, 0, false⟩
  else
    let matched := (translated.filter fun w => matchesLexicon hashes sigs w.binaryMatrix).length
    let mp : ℚ := (matched : ℚ) / (total : ℚ) * 100
    let score := calculateScore log10 ⟨total, matched, mp, 0, false⟩
    ⟨total, matched, mp, score, decide (scoreThreshold ≤ score)⟩

/-! ### MappingGenerator block scheduler (MappingGenerator.cpp)

The mutable scheduling fields of `MappingGenerator` — `state`, `blockWindow`
and `threadToBlock` — are modelled as a record; `system_clock::time_point`s
are modelled as epoch seconds (`Nat`), which is also the resolution at which
the state file stores them.  Block generation itself (the returned mapping
vectors) is covered by `indexToPermutation`/`generateSingleMapping` above;
here only the scheduling state transitions are modelled. -/

inductive BlockState where
  | PENDING
  | COMPLETED
deriving DecidableEq, BEq, Repr

/-- `MappingGenerator::BlockInfo` (MappingGenerator.h:31-42). -/
structure BlockInfo where
  blockIndex : Nat
  state : BlockState
  assignedThreadId : Int
  assignedTime : Nat
  completedTime : Nat
deriving DecidableEq, Repr

/-- `MappingGenerator::GeneratorState` (MappingGenerator.h:45-54); the
default constructor zeroes everything.  The four counters are `uint64_t`:
they are carried here as `Nat`, and every operation that changes them
reduces modulo 2^64, so reachable values always lie below 2^64. -/
structure GeneratorState where
  nextBlockToGenerate : Nat
  oldestTrackedBlock : Nat
  totalBlocksGenerated : Nat
  totalBlocksCompleted : Nat
  isComplete : Bool
deriving DecidableEq, Repr

def GeneratorState.init : GeneratorState := ⟨0, 0, 0, 0, false⟩

/-- The scheduling state of a `MappingGenerator`. -/
structure SchedulerState where
  state : GeneratorState
  blockWindow : List BlockInfo
  threadToBlock : List (Int × Nat)
deriving DecidableEq, Repr

/-- A fresh generator (with `enableStateFile = false`, nothing is loaded). -/
def freshScheduler : SchedulerState := ⟨GeneratorState.init, [], []⟩

/-- `threadToBlock[threadId] = blockIndex` on an `unordered_map`: overwrite
semantics. -/
def mapInsert (m : List (Int × Nat)) (k : Int) (v : Nat) : List (Int × Nat) :=
  (k, v) :: m.filter fun pr => pr.1 != k

/-- `threadToBlock.erase(it)`. -/
def mapErase (m : List (Int × Nat)) (k : Int) : List (Int × Nat) :=
  m.filter fun pr => pr.1 != k

/-- `MappingGenerator::findBlockInWindow` (MappingGenerator.cpp:151-158):
pointer to the first block with the given index. -/
def findBlockInWindow (w : List BlockInfo) (idx : Nat) : Option BlockInfo :=
  w.find? fun b => b.blockIndex == idx

/-- In-place mutation through the pointer `findBlockInWindow` returned:
replace the first block with the given index. -/
def setFirstBlock : List BlockInfo → Nat → BlockInfo → List BlockInfo
  | [], _, _ => []
  | b :: t, idx, nb => if b.blockIndex = idx then nb :: t else b :: setFirstBlock t idx nb

/-- `MappingGenerator::completeBlockForThread` (MappingGenerator.cpp:123-149):
if the thread holds a block that is still PENDING and assigned to it, mark it
COMPLETED (timestamping it) and bump `totalBlocksCompleted` (a `uint64_t`,
so the increment wraps modulo 2^64); always drop the thread's map entry. -/
def completeBlockForThread (now : Nat) (tid : Int) (s : SchedulerState) : SchedulerState :=
  match s.threadToBlock.lookup tid with
  | none => s
  | some blockIndex =>
    let s' :=
      match findBlockInWindow s.blockWindow blockIndex with
      | some b =>
        if b.state = BlockState.PENDING ∧ b.assignedThreadId = tid then
          { s with
            blockWindow := setFirstBlock s.blockWindow blockIndex
              { b with state := BlockState.COMPLETED, completedTime := now },
            state := { s.state with
              totalBlocksCompleted := (s.state.totalBlocksCompleted + 1) % 2 ^ 64 } }
        else s
      | none => s
    { s' with threadToBlock := mapErase s'.threadToBlock tid }

/-- The loop of `MappingGenerator::removeCompletedSequentialBlocks`
(MappingGenerator.cpp:204-226): pop COMPLETED blocks from the front while
they carry the `oldestTrackedBlock` index, advancing it each time
(`state.oldestTrackedBlock++` on a `uint64_t`, wrapping modulo 2^64). -/
def pruneLoop : List BlockInfo → Nat → List BlockInfo × Nat
  | [], oldest => ([], oldest)
  | b :: t, oldest =>
    if b.state = BlockState.COMPLETED ∧ b.blockIndex = oldest then
      pruneLoop t ((oldest + 1) % 2 ^ 64)
    else (b :: t, oldest)

def removeCompletedSequentialBlocks (s : SchedulerState) : SchedulerState :=
  let pr := pruneLoop s.blockWindow s.state.oldestTrackedBlock
  { s with blockWindow := pr.1, state := { s.state with oldestTrackedBlock := pr.2 } }

/-- `MappingGenerator::completeCurrentBlock` (MappingGenerator.cpp:109-120). -/
def completeCurrentBlock (now : Nat) (tid : Int) (s : SchedulerState) : SchedulerState :=
  removeCompletedSequentialBlocks (completeBlockForThread now tid s)

/-- The window scan of `MappingGenerator::getNextBlock`
(MappingGenerator.cpp:80-97): assign the first PENDING block with
`assignedThreadId == -1` to the thread, returning the updated window and the
block's index. -/
def assignFirstPending (now : Nat) (tid : Int) : List BlockInfo → Option (List BlockInfo × Nat)
  | [] => none
  | b :: t =>
    if b.state = BlockState.PENDING ∧ b.assignedThreadId = -1 then
      some ({ b with assignedThreadId := tid, assignedTime := now } :: t, b.blockIndex)
    else
      match assignFirstPending now tid t with
      | some (t', idx) => some (b :: t', idx)
      | none => none

/-- `MappingGenerator::addBlockToWindow` (MappingGenerator.cpp:185-202). -/
def addBlockToWindow (now : Nat) (idx : Nat) (tid : Int) (s : SchedulerState) : SchedulerState :=
  if (findBlockInWindow s.blockWindow idx).isSome then s
  else
    { s with
      blockWindow := s.blockWindow ++ [⟨idx, BlockState.PENDING, tid, now, 0⟩],
      threadToBlock := mapInsert s.threadToBlock tid idx }

/-- `MappingGenerator::createNewBlockForThread` (MappingGenerator.cpp:160-183).
`totalMappingsGenerated = state.nextBlockToGenerate * config.blockSize` is a
`uint64_t` product, so it wraps modulo 2^64 before the comparison with
`TOTAL_COMBINATIONS`, and the two `++` increments wrap the same way. -/
def createNewBlockForThread (blockSize : Nat) (now : Nat) (tid : Int) (s : SchedulerState) :
    SchedulerState :=
  if TOTAL_COMBINATIONS ≤ s.state.nextBlockToGenerate * blockSize % 2 ^ 64 then
    { s with state := { s.state with isComplete := true } }
  else
    let s' := addBlockToWindow now s.state.nextBlockToGenerate tid s
    { s' with
      state := { s'.state with
        nextBlockToGenerate := (s'.state.nextBlockToGenerate + 1) % 2 ^ 64,
        totalBlocksGenerated := (s'.state.totalBlocksGenerated + 1) % 2 ^ 64 } }

/-- `MappingGenerator::getNextBlock` (MappingGenerator.cpp:65-107), state
transitions only (the returned mapping block is `generateBlock`). -/
def getNextBlock (blockSize : Nat) (now : Nat) (tid : Int) (s : SchedulerState) :
    SchedulerState :=
  let s := if (s.threadToBlock.lookup tid).isSome then completeBlockForThread now tid s else s
  if s.state.isComplete then s
  else
    match assignFirstPending now tid s.blockWindow with
    | some (w', idx) =>
      { s with blockWindow := w', threadToBlock := mapInsert s.threadToBlock tid idx }
    | none => createNewBlockForThread blockSize now tid s

/-- `MappingGenerator::reset` (MappingGenerator.cpp:337-349). -/
def resetScheduler : SchedulerState := ⟨GeneratorState.init, [], []⟩

inductive SchedulerOp where
  | acquire (threadId : Int) (now : Nat)
  | complete (threadId : Int) (now : Nat)
  | reset
deriving DecidableEq, Repr

def applyOp (blockSize : Nat) (s : SchedulerState) : SchedulerOp → SchedulerState
  | SchedulerOp.acquire tid now => getNextBlock blockSize now tid s
  | SchedulerOp.complete tid now => completeCurrentBlock now tid s
  | SchedulerOp.reset => resetScheduler

def runOps (blockSize : Nat) (ops : List SchedulerOp) : SchedulerState :=
  ops.foldl (applyOp blockSize) freshScheduler

def pendingCount (w : List BlockInfo) : Nat :=
  w.countP fun b => b.state == BlockState.PENDING

/-- The window invariants of spec §3, plus the bookkeeping equation that
makes them inductive. -/
def SchedInv (s : SchedulerState) : Prop :=
  (∀ i ∈ s.blockWindow.map BlockInfo.blockIndex,
      s.state.oldestTrackedBlock ≤ i ∧ i < s.state.nextBlockToGenerate)
  ∧ (s.blockWindow.map BlockInfo.blockIndex).Pairwise (· < ·)
  ∧ s.state.oldestTrackedBlock ≤ s.state.nextBlockToGenerate
  ∧ s.state.totalBlocksCompleted + pendingCount s.blockWindow = s.state.totalBlocksGenerated

/-- The growth bound threaded through the C4 induction: the creation
counters grow by at most one per operation and reset to zero, so after `n`
operations they are at most `n`; while they stay below 2^64 the `uint64_t`
increments have not wrapped. -/
def SchedBound (n : Nat) (s : SchedulerState) : Prop :=
  s.state.nextBlockToGenerate ≤ n ∧ s.state.totalBlocksGenerated ≤ n

/-- A driver workload: `k` rounds of thread 2 acquiring a fresh block with
`getNextBlock` and completing it with `completeCurrentBlock`.  With a large
`blockSize` this walks `nextBlockToGenerate` up one block per round, which
is how the `uint64_t` counter is brought to its wrap-around point. -/
def acquireCompletePairs : Nat → List SchedulerOp
  | 0 => []
  | k + 1 =>
    acquireCompletePairs k ++ [SchedulerOp.acquire 2 0, SchedulerOp.complete 2 0]

/-! ### Checkpoint serialization (MappingGenerator.cpp:430-613)

The state file is modelled as a list of lines, each line a list of character
codes (the bytes the C++ streams write and `std::getline` reads back).
`saveStateToJson` emits the exact text of the source; the loader mirrors the
`find`/`substr`/`stoull` line parsing of `loadStateFromJson` and
`loadBlockWindowFromJson`. -/

def strCodes (s : String) : List Nat :=
  s.toList.map Char.toNat

/-- `::isspace` on the characters that matter here. -/
def isSpaceCode (c : Nat) : Bool :=
  c == 32 || c == 9 || c == 10 || c == 11 || c == 12 || c == 13

/-- `line.erase(remove_if(line.begin(), line.end(), ::isspace), line.end())`. -/
def removeWs (l : List Nat) : List Nat :=
  l.filter fun c => !isSpaceCode c

/-- `std::string::find(pat)`: index of the first occurrence, `none` for
`npos`. -/
def findSub (pat : List Nat) : List Nat → Option Nat
  | [] => if pat.isEmpty then some 0 else none
  | c :: rest =>
    if pat.isPrefixOf (c :: rest) then some 0 else (findSub pat rest).map (· + 1)

/-- `std::string::find(ch, pos)`. -/
def findCharFrom (c : Nat) (pos : Nat) (l : List Nat) : Option Nat :=
  (findSub [c] (l.drop pos)).map (· + pos)

/-- Decimal rendering of a `uint64_t` by `operator<<`. -/
def natToCodes (n : Nat) : List Nat :=
  if n = 0 then [48] else (Nat.digits 10 n).reverse.map fun d => 48 + d

/-- `std::stoull` on the all-digit substrings produced by the writer. -/
def parseNat (l : List Nat) : Nat :=
  l.foldl (fun a c => a * 10 + (c - 48)) 0

/-- Decimal rendering of an `int` by `operator<<`. -/
def intToCodes (i : Int) : List Nat :=
  if i < 0 then 45 :: natToCodes i.natAbs else natToCodes i.toNat

/-- `std::stoi` on the (possibly `-`-signed) digit substrings produced by
the writer. -/
def parseInt (l : List Nat) : Int :=
  if l.head? = some 45 then -(parseNat l.tail : Int) else (parseNat l : Int)

def patNextBlockToGenerate : List Nat := strCodes "\"nextBlockToGenerate\":"
def patOldestTrackedBlock : List Nat := strCodes "\"oldestTrackedBlock\":"
def patTotalBlocksGenerated : List Nat := strCodes "\"totalBlocksGenerated\":"
def patTotalBlocksCompleted : List Nat := strCodes "\"totalBlocksCompleted\":"
def patIsComplete : List Nat := strCodes "\"isComplete\":"
def patTrue : List Nat := strCodes "true"
def patBlockWindow : List Nat := strCodes "\"block_window\":"
def patBlockIndex : List Nat := strCodes "\"blockIndex\":"
def patState : List Nat := strCodes "\"state\":"
def patPENDINGquoted : List Nat := strCodes "\"PENDING\""
def patCOMPLETEDquoted : List Nat := strCodes "\"COMPLETED\""
def patAssignedThreadId : List Nat := strCodes "\"assignedThreadId\":"
def patAssignedTime : List Nat := strCodes "\"assignedTime\":"
def patCompletedTime : List Nat := strCodes "\"completedTime\":"

/-- The numeric-field extraction of `loadStateFromJson`
(MappingGenerator.cpp:444-467): `pos = find(':')+1`, `end = find(',', pos)`
(falling back to `find('\x7d', pos)`, and to the end of the line for `npos`,
which is what `substr` does with an oversized count), then `stoull`.  (The
`none` case for the colon cannot occur on the lines this is applied to.) -/
def fieldNumValue (line : List Nat) : Nat :=
  match findSub [58] line with
  | none => 0
  | some p =>
    let pos := p + 1
    let e :=
      match findCharFrom 44 pos line with
      | some e => e
      | none =>
        match findCharFrom 125 pos line with
        | some e2 => e2
        | none => line.length
    parseNat ((line.drop pos).take (e - pos))

/-- As `fieldNumValue` but through `stoi`, for `assignedThreadId`
(MappingGenerator.cpp:577-582). -/
def fieldIntValue (line : List Nat) : Int :=
  match findSub [58] line with
  | none => 0
  | some p =>
    let pos := p + 1
    let e :=
      match findCharFrom 44 pos line with
      | some e => e
      | none =>
        match findCharFrom 125 pos line with
        | some e2 => e2
        | none => line.length
    parseInt ((line.drop pos).take (e - pos))

/-- The quoted-timestamp extraction (MappingGenerator.cpp:583-592):
`pos = find('"', find(':')) + 1`, `end = find('"', pos)`, then
`stringToTimePoint` (empty string ↦ epoch). -/
def fieldTimeValue (line : List Nat) : Nat :=
  match findSub [58] line with
  | none => 0
  | some pc =>
    match findCharFrom 34 pc line with
    | none => 0
    | some q =>
      let pos := q + 1
      let e := (findCharFrom 34 pos line).getD line.length
      let str := (line.drop pos).take (e - pos)
      if str.isEmpty then 0 else parseNat str

/-- One iteration of the `loadStateFromJson` line loop
(MappingGenerator.cpp:440-471). -/
def applyStateLine (g : GeneratorState) (raw : List Nat) : GeneratorState :=
  let line := removeWs raw
  if (findSub patNextBlockToGenerate line).isSome then
    { g with nextBlockToGenerate := fieldNumValue line }
  else if (findSub patOldestTrackedBlock line).isSome then
    { g with oldestTrackedBlock := fieldNumValue line }
  else if (findSub patTotalBlocksGenerated line).isSome then
    { g with totalBlocksGenerated := fieldNumValue line }
  else if (findSub patTotalBlocksCompleted line).isSome then
    { g with totalBlocksCompleted := fieldNumValue line }
  else if (findSub patIsComplete line).isSome then
    { g with isComplete := (findSub patTrue line).isSome }
  else g

/-- `loadStateFromJson`'s effect on the (default-initialized) generator
state. -/
def loadGeneratorState (lines : List (List Nat)) : GeneratorState :=
  lines.foldl applyStateLine GeneratorState.init

/-- `BlockInfo()` (MappingGenerator.h:38). -/
def blockInfoDefault : BlockInfo :=
  ⟨0, BlockState.PENDING, -1, 0, 0⟩

/-- The `loadBlockWindowFromJson` line loop (MappingGenerator.cpp:549-604):
state machine over (`inBlockWindow`, `inBlockObject`, `currentBlock`,
accumulated window), with the `break` on `"],"`. -/
def loadWindowLoop : List (List Nat) → Bool → Bool → BlockInfo → List BlockInfo →
    List BlockInfo
  | [], _, _, _, acc => acc
  | raw :: rest, inW, inObj, cur, acc =>
    let line := removeWs raw
    if (findSub patBlockWindow line).isSome then loadWindowLoop rest true inObj cur acc
    else if inW ∧ line = strCodes "\x7b" then
      loadWindowLoop rest inW true blockInfoDefault acc
    else
      let cur' :=
        if inObj ∧ (findSub patBlockIndex line).isSome then
          { cur with blockIndex := fieldNumValue line }
        else if inObj ∧ (findSub patState line).isSome then
          if (findSub patPENDINGquoted line).isSome then
            { cur with state := BlockState.PENDING }
          else if (findSub patCOMPLETEDquoted line).isSome then
            { cur with state := BlockState.COMPLETED }
          else cur
        else if inObj ∧ (findSub patAssignedThreadId line).isSome then
          { cur with assignedThreadId := fieldIntValue line }
        else if inObj ∧ (findSub patAssignedTime line).isSome then
          { cur with assignedTime := fieldTimeValue line }
        else if inObj ∧ (findSub patCompletedTime line).isSome then
          { cur with completedTime := fieldTimeValue line }
        else cur
      if inObj ∧ (line = strCodes "\x7d" ∨ line = strCodes "\x7d,") then
        loadWindowLoop rest inW false cur' (acc ++ [cur'])
      else if inW ∧ line = strCodes "]," then acc
      else loadWindowLoop rest inW inObj cur' acc

def loadBlockWindow (lines : List (List Nat)) : List BlockInfo :=
  loadWindowLoop lines false false blockInfoDefault []

/-- `loadPendingBlocksFromState` (MappingGenerator.cpp:519-532): every
PENDING block loses its worker assignment; `threadToBlock` is cleared. -/
def loadPendingBlocksReset (w : List BlockInfo) : List BlockInfo :=
  w.map fun b =>
    if b.state = BlockState.PENDING then
      { b with assignedThreadId := -1, assignedTime := 0 }
    else b

/-- The whole load path of the `MappingGenerator` constructor with a state
file present: `loadStateFromJson` (fields + window) then
`loadPendingBlocksFromState`. -/
def loadScheduler (lines : List (List Nat)) : SchedulerState :=
  ⟨loadGeneratorState lines, loadPendingBlocksReset (loadBlockWindow lines), []⟩

/-- `blockStateToString` (MappingGenerator.cpp:415-421). -/
def blockStateToCodes : BlockState → List Nat
  | BlockState.PENDING => strCodes "PENDING"
  | BlockState.COMPLETED => strCodes "COMPLETED"

/-- The five lines `saveStateToJson` writes per block
(MappingGenerator.cpp:498-507), the closing line losing its comma for the
last block. -/
def blockLines (b : BlockInfo) (isLast : Bool) : List (List Nat) :=
  [strCodes "    \x7b",
   strCodes "      \"blockIndex\": " ++ natToCodes b.blockIndex ++ strCodes ",",
   strCodes "      \"state\": \"" ++ blockStateToCodes b.state ++ strCodes "\",",
   strCodes "      \"assignedThreadId\": " ++ intToCodes b.assignedThreadId ++ strCodes ",",
   strCodes "      \"assignedTime\": \"" ++ natToCodes b.assignedTime ++ strCodes "\",",
   strCodes "      \"completedTime\": \"" ++ natToCodes b.completedTime ++ strCodes "\"",
   if isLast then strCodes "    \x7d" else strCodes "    \x7d,"]

def windowLines : List BlockInfo → List (List Nat)
  | [] => []
  | [b] => blockLines b true
  | b :: t => blockLines b false ++ windowLines t

/-- `saveStateToJson` (MappingGenerator.cpp:481-517): the exact lines
written to the state file. -/
def saveLines (st : GeneratorState) (w : List BlockInfo) (blockSize : Nat) : List (List Nat) :=
  [strCodes "\x7b",
   strCodes "  \"generator_state\": \x7b",
   strCodes "    \"nextBlockToGenerate\": " ++ natToCodes st.nextBlockToGenerate ++ strCodes ",",
   strCodes "    \"oldestTrackedBlock\": " ++ natToCodes st.oldestTrackedBlock ++ strCodes ",",
   strCodes "    \"totalBlocksGenerated\": " ++ natToCodes st.totalBlocksGenerated ++ strCodes ",",
   strCodes "    \"totalBlocksCompleted\": " ++ natToCodes st.totalBlocksCompleted ++ strCodes ",",
   strCodes "    \"isComplete\": " ++ (if st.isComplete then patTrue else strCodes "false"),
   strCodes "  \x7d,",
   strCodes "  \"block_window\": ["]
  ++ windowLines w
  ++ [strCodes "  ],",
      strCodes "  \"config\": \x7b",
      strCodes "    \"blockSize\": " ++ natToCodes blockSize,
      strCodes "  \x7d",
      strCodes "\x7d"]

/-! ### Theorems: permutation validity (C1) and injectivity (C2) -/

theorem eraseIdx_cons_perm {l : List Nat} {i : Nat} (h : i < l.length) :
    l.Perm (l[i] :: l.eraseIdx i) :=
  (List.perm_cons_erase (l.getElem_mem h)).trans
    (List.Perm.cons _ (List.erase_getElem h))

theorem indexToPermAux_perm :
    ∀ (n : Nat) (available : List Nat) (remaining : Nat),
      available.length = n → (indexToPermAux n available remaining).Perm available := by
  intro n
  induction n with
  | zero =>
    intro available remaining h
    rw [List.length_eq_zero] at h
    subst h
    simp [indexToPermAux]
  | succ pos ih =>
    intro available remaining h
    rw [indexToPermAux]
    set chosen0 := remaining / factorialU64 pos with hc0
    set chosen := if available.length ≤ chosen0 then available.length - 1 else chosen0 with hc
    have hlt : chosen < available.length := by
      rw [hc]
      split
      · omega
      · omega
    have hgetD : available.getD chosen 0 = available[chosen] := by
      rw [List.getD_eq_getElem _ _ hlt]
    have hlen : (available.eraseIdx chosen).length = pos := by
      have := List.length_eraseIdx_add_one hlt
      omega
    have htail := ih (available.eraseIdx chosen) (remaining % factorialU64 pos) hlen
    rw [hgetD]
    exact (htail.cons _).trans (eraseIdx_cons_perm hlt).symm

/-- C1: for every index below 2^64 — the whole `uint64_t` domain, which
covers both the in-range indices `[0, 27!)` and the out-of-range ones where
only the defensive clamp stands between the division and the `available`
vector — `indexToPermutation` returns a permutation of `{0..26}` (it is a
rearrangement of `[0, 1, …, 26]`); the function is total, so no exception
is raised. -/
theorem indexToPermutation_isPerm (index : Nat) (_h : index < 2 ^ 64) :
    (indexToPermutation index).Perm (List.range 27) :=
  indexToPermAux_perm 27 (List.range 27) index (List.length_range 27)

theorem indexToPermutation_isPerm_witness :
    (5 : Nat) < 2 ^ 64 ∧ (indexToPermutation 5).Perm (List.range 27) :=
  ⟨by norm_num, indexToPermutation_isPerm 5 (by norm_num)⟩

theorem permToIndexAux_indexToPermAux :
    ∀ (n : Nat) (available : List Nat) (remaining : Nat),
      available.length = n → available.Nodup → noClamp n remaining →
      permToIndexAux n available (indexToPermAux n available remaining) = remaining := by
  intro n
  induction n with
  | zero =>
    intro available remaining _ _ hnc
    have : remaining = 0 := hnc
    subst this
    simp [indexToPermAux, permToIndexAux]
  | succ pos ih =>
    intro available remaining h hnd hnc
    obtain ⟨hdig, hnc'⟩ := hnc
    rw [indexToPermAux]
    have hlt : remaining / factorialU64 pos < available.length := by omega
    have hnoclamp :
        (if available.length ≤ remaining / factorialU64 pos then available.length - 1
         else remaining / factorialU64 pos) = remaining / factorialU64 pos := by
      rw [if_neg]
      omega
    rw [hnoclamp, List.getD_eq_getElem _ _ hlt, permToIndexAux]
    have hidx : available.indexOf available[remaining / factorialU64 pos] =
        remaining / factorialU64 pos :=
      List.indexOf_getElem hnd _ hlt
    rw [hidx]
    have hlen : (available.eraseIdx (remaining / factorialU64 pos)).length = pos := by
      have := List.length_eraseIdx_add_one hlt
      omega
    have hnd' : (available.eraseIdx (remaining / factorialU64 pos)).Nodup :=
      hnd.sublist (List.eraseIdx_sublist _ _)
    rw [ih _ _ hlen hnd' hnc']
    rw [Nat.mul_comm]
    exact Nat.div_add_mod remaining (factorialU64 pos)

theorem factorialU64_eq_factorial : ∀ n < 21, factorialU64 n = n.factorial := by decide

theorem noClamp_of_lt_factorial : ∀ n ≤ 20, ∀ r < n.factorial, noClamp n r := by
  intro n
  induction n with
  | zero =>
    intro _ r hr
    have : r = 0 := by
      simp [Nat.factorial] at hr
      omega
    exact this
  | succ pos ih =>
    intro hn r hr
    have hpos : 0 < pos.factorial := pos.factorial_pos
    have hf : factorialU64 pos = pos.factorial := factorialU64_eq_factorial pos (by omega)
    have hr' : r < (pos + 1) * pos.factorial := by
      rw [← Nat.factorial_succ]
      exact hr
    constructor
    · rw [hf]
      exact (Nat.div_lt_iff_lt_mul hpos).mpr hr'
    · rw [hf]
      exact ih (by omega) _ (Nat.mod_lt _ hpos)

theorem factorialU64_26 : factorialU64 26 = 16877220553537093632 := by decide

theorem factorialU64_25 : factorialU64 25 = 7034535277573963776 := by decide

theorem factorialU64_24 : factorialU64 24 = 10611558092380307456 := by decide

theorem factorialU64_23 : factorialU64 23 = 8128291617894825984 := by decide

theorem factorialU64_22 : factorialU64 22 = 17196083355034583040 := by decide

theorem factorialU64_21 : factorialU64 21 = 14197454024290336768 := by decide

theorem factorialU64_20 : factorialU64 20 = 2432902008176640000 := by decide

theorem noClamp_totalCombinations (index : Nat) (h : index < TOTAL_COMBINATIONS) :
    noClamp 27 index := by
  rw [TOTAL_COMBINATIONS] at h
  have hfin : index % factorialU64 26 % factorialU64 25 % factorialU64 24 % factorialU64 23
      % factorialU64 22 % factorialU64 21 % factorialU64 20 < Nat.factorial 20 := by
    rw [← factorialU64_eq_factorial 20 (by omega)]
    refine Nat.mod_lt _ ?_
    simp only [factorialU64_20]
    omega
  refine ⟨?_, ?_, ?_, ?_, ?_, ?_, ?_, noClamp_of_lt_factorial 20 (by omega) _ hfin⟩ <;>
    simp only [factorialU64_26, factorialU64_25, factorialU64_24, factorialU64_23,
      factorialU64_22, factorialU64_21, factorialU64_20] <;>
    omega

theorem permToIndex_leftInverse (index : Nat) (h : index < TOTAL_COMBINATIONS) :
    permToIndexAux 27 (List.range 27) (indexToPermutation index) = index :=
  permToIndexAux_indexToPermAux 27 (List.range 27) index (List.length_range 27)
    (List.nodup_range 27) (noClamp_totalCombinations index h)

/-- C2: the factorial-base decoding is injective on the whole index range
`[0, TOTAL_COMBINATIONS)` (the constant the source and the specification
both write as `27!`): distinct global indices yield distinct permutations. -/
theorem indexToPermutation_injective (i j : Nat)
    (hi : i < TOTAL_COMBINATIONS) (hj : j < TOTAL_COMBINATIONS) (hne : i ≠ j) :
    indexToPermutation i ≠ indexToPermutation j := by
  intro heq
  apply hne
  have := congrArg (permToIndexAux 27 (List.range 27)) heq
  rwa [permToIndex_leftInverse i hi, permToIndex_leftInverse j hj] at this

theorem indexToPermutation_injective_witness :
    indexToPermutation 0 ≠ indexToPermutation 1 :=
  indexToPermutation_injective 0 1 (by norm_num [TOTAL_COMBINATIONS])
    (by norm_num [TOTAL_COMBINATIONS]) (by norm_num)

/-! ### Theorems: the translation kernel (C5) -/

theorem matEntry_binary {M : List (List Nat)}
    (hM : ∀ row ∈ M, ∀ b ∈ row, b = 0 ∨ b = 1) (i j : Nat) :
    matEntry M i j = 0 ∨ matEntry M i j = 1 := by
  rw [matEntry]
  by_cases hi : i < M.length
  · rw [List.getD_eq_getElem _ _ hi]
    by_cases hj : j < M[i].length
    · rw [List.getD_eq_getElem _ _ hj]
      exact hM _ (M.getElem_mem hi) _ (M[i].getElem_mem hj)
    · left
      exact List.getD_eq_default _ _ (by omega)
  · left
    have h0 : M.getD i [] = [] := List.getD_eq_default _ _ (by omega)
    rw [h0]
    simp [List.getD]

theorem getD_map_range {f : Nat → Nat} {n j : Nat} (hj : j < n) :
    ((List.range n).map f).getD j 0 = f j := by
  rw [List.getD_eq_getElem _ _ (by simpa using hj)]
  simp

theorem land_binary_ne_zero {x y : Nat} (hx : x = 0 ∨ x = 1) (hy : y = 0 ∨ y = 1) :
    Nat.land x y ≠ 0 ↔ x = 1 ∧ y = 1 := by
  rcases hx with h | h <;> rcases hy with h' | h' <;> subst h <;> subst h' <;> simp <;> decide

/-- C5: for every 27-element binary row of a batch, and every binary matrix,
both `Mapping::applyMapping` and the corresponding row that
`StaticTranslator::matrixMultiplyBatch` produces satisfy: output bit `j` is
1 exactly when some `i` has `input[i] = 1` and `matrix[i][j] = 1`. -/
theorem translation_or_of_selected_columns
    (rows : List (List Nat)) (M : List (List Nat)) (k : Nat) (hk : k < rows.length)
    (hlen : (rows.getD k []).length = 27)
    (hbin : ∀ b ∈ rows.getD k [], b = 0 ∨ b = 1)
    (hMbin : ∀ row ∈ M, ∀ b ∈ row, b = 0 ∨ b = 1)
    (j : Nat) (hj : j < 27) :
    ((applyMapping (rows.getD k []) M).getD j 0 = 1
        ↔ ∃ i, i < 27 ∧ (rows.getD k []).getD i 0 = 1 ∧ matEntry M i j = 1)
    ∧ (((matrixMultiplyBatch rows M).getD k []).getD j 0 = 1
        ↔ ∃ i, i < 27 ∧ (rows.getD k []).getD i 0 = 1 ∧ matEntry M i j = 1) := by
  set input := rows.getD k [] with hinput
  have hbin' : ∀ i, input.getD i 0 = 0 ∨ input.getD i 0 = 1 := by
    intro i
    by_cases hi : i < input.length
    · rw [List.getD_eq_getElem _ _ hi]
      exact hbin _ (input.getElem_mem hi)
    · left
      exact List.getD_eq_default _ _ (by omega)
  constructor
  · rw [applyMapping, if_neg (by omega)]
    rw [getD_map_range hj]
    constructor
    · intro h1
      by_cases hany :
          (List.range 27).any
            (fun i => decide (input.getD i 0 ≠ 0) && decide (matEntry M i j ≠ 0)) = true
      · rw [List.any_eq_true] at hany
        obtain ⟨i, hi, hpr⟩ := hany
        rw [Bool.and_eq_true, decide_eq_true_iff, decide_eq_true_iff] at hpr
        refine ⟨i, List.mem_range.mp hi, ?_, ?_⟩
        · rcases hbin' i with h | h
          · exact absurd h hpr.1
          · exact h
        · rcases matEntry_binary hMbin i j with h | h
          · exact absurd h hpr.2
          · exact h
      · rw [if_neg hany] at h1
        omega
    · rintro ⟨i, hi27, hv, hm⟩
      rw [if_pos]
      rw [List.any_eq_true]
      refine ⟨i, List.mem_range.mpr hi27, ?_⟩
      rw [Bool.and_eq_true, decide_eq_true_iff, decide_eq_true_iff, hv, hm]
      exact ⟨one_ne_zero, one_ne_zero⟩
  · have hrow : (matrixMultiplyBatch rows M).getD k [] =
        (List.range 27).map fun j' => batchEntry input M j' := by
      rw [matrixMultiplyBatch, hinput,
        List.getD_eq_getElem _ _ (by simpa using hk), List.getElem_map,
        List.getD_eq_getElem _ _ hk]
    rw [hrow, getD_map_range hj, batchEntry]
    constructor
    · intro h1
      by_cases hsum :
          0 < ((List.range 27).map fun i => Nat.land (input.getD i 0) (matEntry M i j)).sum
      · have hne : ¬ ∀ x ∈ (List.range 27).map
            fun i => Nat.land (input.getD i 0) (matEntry M i j), x = 0 := by
          intro hall
          rw [← List.sum_eq_zero_iff] at hall
          omega
        push_neg at hne
        obtain ⟨x, hxmem, hxne⟩ := hne
        rw [List.mem_map] at hxmem
        obtain ⟨i, hi, hxi⟩ := hxmem
        subst hxi
        have := (land_binary_ne_zero (hbin' i) (matEntry_binary hMbin i j)).mp hxne
        exact ⟨i, List.mem_range.mp hi, this.1, this.2⟩
      · rw [if_neg hsum] at h1
        omega
    · rintro ⟨i, hi27, hv, hm⟩
      rw [if_pos]
      have hmem : Nat.land (input.getD i 0) (matEntry M i j) ∈
          (List.range 27).map fun i' => Nat.land (input.getD i' 0) (matEntry M i' j) :=
        List.mem_map.mpr ⟨i, List.mem_range.mpr hi27, rfl⟩
      have hne : Nat.land (input.getD i 0) (matEntry M i j) ≠ 0 := by
        rw [hv, hm]
        decide
      rcases Nat.eq_zero_or_pos
          ((List.range 27).map fun i' => Nat.land (input.getD i' 0) (matEntry M i' j)).sum with
        hz | hpos
      · rw [List.sum_eq_zero_iff] at hz
        exact absurd (hz _ hmem) hne
      · exact hpos

theorem translation_or_of_selected_columns_witness :
    (0 : Nat) < ([[1] ++ List.replicate 26 0] : List (List Nat)).length ∧
    ((applyMapping (([[1] ++ List.replicate 26 0] : List (List Nat)).getD 0 []) zeroMatrix27).getD 3 0 = 1
        ↔ ∃ i, i < 27 ∧ (([[1] ++ List.replicate 26 0] : List (List Nat)).getD 0 []).getD i 0 = 1 ∧
            matEntry zeroMatrix27 i 3 = 1) := by
  refine ⟨by decide, ?_⟩
  exact (translation_or_of_selected_columns [[1] ++ List.replicate 26 0] zeroMatrix27 0
    (by decide) (by decide) (by decide) (by decide) 3 (by decide)).1

/-! ### Theorems: bijective mappings preserve popcount (C6) -/

theorem bool_eq_of_iff {a b : Bool} (h : a = true ↔ b = true) : a = b := by
  cases a <;> cases b <;> simp_all

theorem setMapping_shape {M : List (List Nat)} (hlen : M.length = 27)
    (hrows : ∀ r ∈ M, r.length = 27) (a b : Nat) :
    (setMapping M a b).length = 27 ∧ ∀ r ∈ setMapping M a b, r.length = 27 := by
  rw [setMapping]
  split
  · refine ⟨by simpa using hlen, ?_⟩
    intro r hr
    rcases List.mem_or_eq_of_mem_set hr with h | h
    · exact hrows r h
    · subst h
      rw [List.length_set]
      rename_i hab
      have ha : a < M.length := by omega
      rw [List.getD_eq_getElem _ _ ha]
      exact hrows _ (M.getElem_mem ha)
  · exact ⟨hlen, hrows⟩

theorem getD_set_list {α : Type} (l : List α) (a : Nat) (x : α) (i : Nat) (d : α)
    (ha : a < l.length) :
    (l.set a x).getD i d = if a = i then x else l.getD i d := by
  rcases Nat.lt_or_ge i l.length with hi | hi
  · rw [List.getD_eq_getElem _ _ (by simpa using hi),
      List.getD_eq_getElem _ _ hi, List.getElem_set]
  · rw [List.getD_eq_default _ _ (by simpa using hi),
      List.getD_eq_default _ _ hi, if_neg (by omega)]

theorem matEntry_setMapping {M : List (List Nat)} (hlen : M.length = 27)
    (hrows : ∀ r ∈ M, r.length = 27) {a b : Nat} (ha : a < 27) (hb : b < 27) (i j : Nat) :
    matEntry (setMapping M a b) i j = if i = a ∧ j = b then 1 else matEntry M i j := by
  rw [setMapping, if_pos ⟨ha, hb⟩, matEntry, matEntry]
  have ha' : a < M.length := by omega
  have hrowlen : (M.getD a []).length = 27 := by
    rw [List.getD_eq_getElem _ _ ha']
    exact hrows _ (M.getElem_mem ha')
  rw [getD_set_list _ _ _ _ _ ha']
  by_cases hia : a = i
  · subst hia
    rw [if_pos rfl, getD_set_list _ _ _ _ _ (by omega)]
    by_cases hjb : b = j
    · subst hjb
      rw [if_pos rfl, if_pos ⟨rfl, rfl⟩]
    · rw [if_neg hjb, if_neg (by tauto)]
  · rw [if_neg hia, if_neg (by tauto)]

theorem matEntry_zeroMatrix27 (i j : Nat) : matEntry zeroMatrix27 i j = 0 := by
  rw [matEntry]
  have hrow : zeroMatrix27.getD i [] = List.replicate 27 0 ∨ zeroMatrix27.getD i [] = [] := by
    rcases Nat.lt_or_ge i 27 with hi | hi
    · left
      rw [zeroMatrix27, List.getD_eq_getElem _ _ (by rw [List.length_replicate]; exact hi)]
      exact List.getElem_replicate ..
    · right
      exact List.getD_eq_default _ _ (by rw [zeroMatrix27, List.length_replicate]; exact hi)
  rcases hrow with h | h <;> rw [h]
  · rcases Nat.lt_or_ge j 27 with hj | hj
    · rw [List.getD_eq_getElem _ _ (by rw [List.length_replicate]; exact hj)]
      exact List.getElem_replicate ..
    · exact List.getD_eq_default _ _ (by rw [List.length_replicate]; exact hj)
  · simp [List.getD]

theorem matEntry_permFold (p : List Nat) :
    ∀ (L : List Nat) (M : List (List Nat)), M.length = 27 → (∀ r ∈ M, r.length = 27) →
      (∀ a ∈ L, a < 27) → ∀ i j,
      matEntry
        (L.foldl (fun M' a => if p.getD a 0 < 27 then setMapping M' a (p.getD a 0) else M') M) i j
      = if i ∈ L ∧ p.getD i 0 < 27 ∧ p.getD i 0 = j then 1 else matEntry M i j := by
  intro L
  induction L with
  | nil =>
    intro M _ _ _ i j
    simp
  | cons a L' ih =>
    intro M hlen hrows hmem i j
    rw [List.foldl_cons]
    by_cases hpa : p.getD a 0 < 27
    · rw [if_pos hpa]
      have hshape := setMapping_shape hlen hrows a (p.getD a 0)
      rw [ih _ hshape.1 hshape.2 (fun x hx => hmem x (List.mem_cons_of_mem a hx)) i j]
      rw [matEntry_setMapping hlen hrows (hmem a (List.mem_cons_self a L')) hpa i j]
      by_cases hL' : i ∈ L' ∧ p.getD i 0 < 27 ∧ p.getD i 0 = j
      · rw [if_pos hL', if_pos ⟨List.mem_cons_of_mem a hL'.1, hL'.2⟩]
      · rw [if_neg hL']
        by_cases hia : i = a ∧ j = p.getD a 0
        · rw [if_pos hia, if_pos ⟨hia.1 ▸ List.mem_cons_self a L', by rw [hia.1]; omega,
            by rw [hia.1, hia.2]⟩]
        · rw [if_neg hia, if_neg]
          intro hc
          rcases List.mem_cons.mp hc.1 with h | h
          · exact hia ⟨h, by rw [← h, hc.2.2]⟩
          · exact hL' ⟨h, hc.2⟩
    · rw [if_neg hpa]
      rw [ih _ hlen hrows (fun x hx => hmem x (List.mem_cons_of_mem a hx)) i j]
      by_cases hL' : i ∈ L' ∧ p.getD i 0 < 27 ∧ p.getD i 0 = j
      · rw [if_pos hL', if_pos ⟨List.mem_cons_of_mem a hL'.1, hL'.2⟩]
      · rw [if_neg hL', if_neg]
        intro hc
        rcases List.mem_cons.mp hc.1 with h | h
        · subst h
          omega
        · exact hL' ⟨h, hc.2⟩

theorem mappingFromPermutation_entry (p : List Nat) (hplen : p.length = 27)
    (hpmem : ∀ x ∈ p, x < 27) (i j : Nat) :
    matEntry (mappingFromPermutation p) i j = if i < 27 ∧ p.getD i 0 = j then 1 else 0 := by
  rw [mappingFromPermutation, hplen, Nat.min_self]
  rw [matEntry_permFold p (List.range 27) zeroMatrix27 (by simp [zeroMatrix27])
    (fun r hr => by rw [List.eq_of_mem_replicate hr]; simp) (fun a ha => List.mem_range.mp ha) i j]
  rw [matEntry_zeroMatrix27]
  by_cases hi : i < 27
  · have hpi : p.getD i 0 < 27 := by
      rw [List.getD_eq_getElem _ _ (by omega)]
      exact hpmem _ (p.getElem_mem (by omega))
    by_cases hj : p.getD i 0 = j
    · rw [if_pos ⟨List.mem_range.mpr hi, hpi, hj⟩, if_pos ⟨hi, hj⟩]
    · rw [if_neg (by tauto), if_neg (by tauto)]
  · rw [if_neg (by intro hc; exact hi (List.mem_range.mp hc.1)), if_neg (by tauto)]

theorem count_one_eq_countP_range (l : List Nat) :
    l.count 1 = (List.range l.length).countP fun i => l.getD i 0 == 1 := by
  induction l with
  | nil => simp
  | cons a t ih =>
    rw [List.count_cons, List.length_cons, List.range_succ_eq_map, List.countP_cons,
      List.countP_map, ih]
    have : ((fun i => (a :: t).getD i 0 == 1) ∘ Nat.succ) = fun i => t.getD i 0 == 1 := by
      funext i
      simp [List.getD]
    rw [this]
    simp [List.getD]

theorem countP_range_eq_card_filter (n : Nat) (q : Nat → Bool) :
    (List.range n).countP q = ((Finset.range n).filter (fun i => q i = true)).card := by
  induction n with
  | zero => simp
  | succ m ih =>
    rw [List.range_succ, List.countP_append, Finset.range_succ, Finset.filter_insert, ih]
    by_cases hq : q m = true
    · rw [if_pos hq, Finset.card_insert_of_not_mem (by simp)]
      simp [hq]
    · rw [if_neg hq]
      simp [hq]

theorem count_one_eq_card_filter (l : List Nat) :
    l.count 1 = ((Finset.range l.length).filter (fun i => l.getD i 0 = 1)).card := by
  rw [count_one_eq_countP_range, countP_range_eq_card_filter]
  exact congrArg Finset.card (Finset.filter_congr (fun x _ => by simp))

/-- C6: a `Mapping` built by `generateSingleMapping` from a permutation of
`{0..26}` maps any 27-bit binary vector to an output with the same number
of set bits. -/
theorem bijective_mapping_preserves_popcount (p : List Nat) (hp : p.Perm (List.range 27))
    (input : List Nat) (hlen : input.length = 27)
    (hbin : ∀ b ∈ input, b = 0 ∨ b = 1) :
    (applyMapping input (mappingFromPermutation p)).count 1 = input.count 1 := by
  have hplen : p.length = 27 := by rw [hp.length_eq, List.length_range]
  have hpmem : ∀ x ∈ p, x < 27 := fun x hx => List.mem_range.mp (hp.mem_iff.mp hx)
  have hnodup : p.Nodup := hp.nodup_iff.mpr (List.nodup_range 27)
  have hbin' : ∀ i, i < 27 → input.getD i 0 = 0 ∨ input.getD i 0 = 1 := by
    intro i hi
    rw [List.getD_eq_getElem _ _ (by omega)]
    exact hbin _ (input.getElem_mem (by omega))
  have hentry := mappingFromPermutation_entry p hplen hpmem
  have hgetp : ∀ i, i < 27 → p.getD i 0 < 27 := by
    intro i hi
    rw [List.getD_eq_getElem _ _ (by omega)]
    exact hpmem _ (p.getElem_mem (by omega))
  have hout_eq : applyMapping input (mappingFromPermutation p) =
      (List.range 27).map fun j =>
        if ((List.range 27).any fun i => decide (input.getD i 0 ≠ 0) &&
            decide (matEntry (mappingFromPermutation p) i j ≠ 0))
        then 1 else 0 := by
    rw [applyMapping, if_neg (by omega)]
  have hlenout : (applyMapping input (mappingFromPermutation p)).length = 27 := by
    rw [hout_eq]
    simp
  rw [count_one_eq_card_filter, count_one_eq_card_filter, hlen, hlenout]
  have hiff : ∀ j ∈ Finset.range 27,
      ((applyMapping input (mappingFromPermutation p)).getD j 0 = 1) ↔
        (∃ i ∈ Finset.range 27, input.getD i 0 = 1 ∧ p.getD i 0 = j) := by
    intro j hj
    have hj27 := Finset.mem_range.mp hj
    rw [hout_eq, getD_map_range hj27]
    constructor
    · intro h1
      have hcond :
          ((List.range 27).any fun i => decide (input.getD i 0 ≠ 0) &&
            decide (matEntry (mappingFromPermutation p) i j ≠ 0)) = true := by
        by_contra hc
        rw [if_neg hc] at h1
        simp at h1
      rw [List.any_eq_true] at hcond
      obtain ⟨i, hi, hpr⟩ := hcond
      rw [Bool.and_eq_true, decide_eq_true_iff, decide_eq_true_iff] at hpr
      have hi27 := List.mem_range.mp hi
      refine ⟨i, Finset.mem_range.mpr hi27, ?_, ?_⟩
      · rcases hbin' i hi27 with h | h
        · exact absurd h hpr.1
        · exact h
      · have := hpr.2
        rw [hentry i j] at this
        by_cases hc : i < 27 ∧ p.getD i 0 = j
        · exact hc.2
        · rw [if_neg hc] at this
          omega
    · rintro ⟨i, hi27, hv, hpj⟩
      rw [Finset.mem_range] at hi27
      rw [if_pos]
      rw [List.any_eq_true]
      refine ⟨i, List.mem_range.mpr hi27, ?_⟩
      rw [Bool.and_eq_true, decide_eq_true_iff, decide_eq_true_iff, hv, hentry i j,
        if_pos ⟨hi27, hpj⟩]
      exact ⟨one_ne_zero, one_ne_zero⟩
  rw [Finset.filter_congr hiff]
  have himg : (Finset.range 27).filter
        (fun j => ∃ i ∈ Finset.range 27, input.getD i 0 = 1 ∧ p.getD i 0 = j)
      = ((Finset.range 27).filter (fun i => input.getD i 0 = 1)).image (fun i => p.getD i 0) := by
    ext j
    rw [Finset.mem_filter, Finset.mem_image]
    constructor
    · rintro ⟨_, i, hi27, hv, hpj⟩
      exact ⟨i, Finset.mem_filter.mpr ⟨hi27, hv⟩, hpj⟩
    · rintro ⟨i, hi, hpj⟩
      rw [Finset.mem_filter, Finset.mem_range] at hi
      have hpj' : p.getD i 0 = j := hpj
      have hj27 : j < 27 := hpj' ▸ hgetp i hi.1
      exact ⟨Finset.mem_range.mpr hj27, i, Finset.mem_range.mpr hi.1, hi.2, hpj'⟩
  rw [himg, Finset.card_image_of_injOn]
  intro i1 h1 i2 h2 heq
  rw [Finset.coe_filter, Set.mem_setOf_eq, Finset.mem_range] at h1 h2
  have heq' : p.getD i1 0 = p.getD i2 0 := heq
  have e1 := List.getD_eq_getElem p 0 (show i1 < p.length by omega)
  have e2 := List.getD_eq_getElem p 0 (show i2 < p.length by omega)
  rw [e1] at heq'
  rw [e2] at heq'
  exact (hnodup.getElem_inj_iff).mp heq'

theorem bijective_mapping_preserves_popcount_witness :
    (List.range 27).Perm (List.range 27) ∧
    (applyMapping ([1] ++ List.replicate 26 0)
      (mappingFromPermutation (List.range 27))).count 1 = ([1] ++ List.replicate 26 0).count 1 :=
  ⟨List.Perm.refl _,
    bijective_mapping_preserves_popcount (List.range 27) (List.Perm.refl _)
      ([1] ++ List.replicate 26 0) (by decide) (by decide)⟩

/-! ### Theorems: Hebrew text regeneration and translateWordSet (C10) -/

theorem lookup_mem {l : List (Nat × Nat)} {c i : Nat} (h : l.lookup c = some i) : (c, i) ∈ l := by
  induction l with
  | nil => simp [List.lookup] at h
  | cons a t ih =>
    rw [List.lookup] at h
    cases hc : (c == a.1) with
    | true =>
      rw [hc] at h
      simp at h
      have hca : c = a.1 := by simpa using hc
      rw [hca, ← h]
      exact List.mem_cons_self a t
    | false =>
      rw [hc] at h
      simp at h
      exact List.mem_cons_of_mem a (ih h)

theorem foldSet_length (table : List (Nat × Nat)) :
    ∀ (text : List Nat) (m : List Nat),
      (text.foldl
        (fun m' c => match table.lookup c with | some i => m'.set i 1 | none => m') m).length
      = m.length := by
  intro text
  induction text with
  | nil =>
    intro m
    rfl
  | cons c t ih =>
    intro m
    rw [List.foldl_cons]
    cases h : table.lookup c with
    | none =>
      simp only [h]
      exact ih m
    | some i =>
      simp only [h]
      rw [ih]
      exact List.length_set ..

theorem getD_replicate_zero (n k : Nat) : (List.replicate n (0 : Nat)).getD k 0 = 0 := by
  rcases Nat.lt_or_ge k n with h | h
  · rw [List.getD_eq_getElem _ _ (by simpa using h)]
    exact List.getElem_replicate ..
  · exact List.getD_eq_default _ _ (by simpa using h)

theorem foldSet_getD (table : List (Nat × Nat)) (htable : ∀ pr ∈ table, pr.2 < 27) :
    ∀ (text : List Nat) (m : List Nat), m.length = 27 → ∀ k : Nat,
      (text.foldl
        (fun m' c => match table.lookup c with | some i => m'.set i 1 | none => m') m).getD k 0
      = if ∃ c ∈ text, table.lookup c = some k then 1 else m.getD k 0 := by
  intro text
  induction text with
  | nil =>
    intro m _ k
    simp
  | cons c t ih =>
    intro m hm k
    rw [List.foldl_cons]
    cases h : table.lookup c with
    | none =>
      simp only [h]
      rw [ih m hm k]
      refine if_congr ?_ rfl rfl
      constructor
      · rintro ⟨x, hx, hxl⟩
        exact ⟨x, List.mem_cons_of_mem c hx, hxl⟩
      · rintro ⟨x, hx, hxl⟩
        rcases List.mem_cons.mp hx with rfl | hx'
        · rw [h] at hxl
          cases hxl
        · exact ⟨x, hx', hxl⟩
    | some i =>
      simp only [h]
      have hi27 : i < 27 := htable (c, i) (lookup_mem h)
      rw [ih (m.set i 1) (by rw [List.length_set]; exact hm) k]
      by_cases hex : ∃ x ∈ t, table.lookup x = some k
      · obtain ⟨x, hx, hxl⟩ := hex
        rw [if_pos ⟨x, hx, hxl⟩, if_pos ⟨x, List.mem_cons_of_mem c hx, hxl⟩]
      · rw [if_neg hex, getD_set_list _ _ _ _ _ (by omega)]
        by_cases hik : i = k
        · rw [if_pos hik, if_pos ⟨c, List.mem_cons_self c t, by rw [h, hik]⟩]
        · rw [if_neg hik, if_neg]
          rintro ⟨x, hx, hxl⟩
          rcases List.mem_cons.mp hx with rfl | hx'
          · rw [h] at hxl
            exact hik (by injection hxl)
          · exact hex ⟨x, hx', hxl⟩

theorem alphabetTable_snd_lt (a : Alphabet) : ∀ pr ∈ alphabetTable a, pr.2 < 27 := by
  cases a <;> decide

theorem generateBinaryMatrix_length (alphabet : Alphabet) (text : List Nat) :
    (generateBinaryMatrix alphabet text).length = 27 := by
  rw [generateBinaryMatrix, foldSet_length]
  exact List.length_replicate ..

theorem generateBinaryMatrix_getD (alphabet : Alphabet) (text : List Nat) (k : Nat) :
    (generateBinaryMatrix alphabet text).getD k 0 =
      if ∃ c ∈ text, (alphabetTable alphabet).lookup c = some k then 1 else 0 := by
  rw [generateBinaryMatrix,
    foldSet_getD _ (alphabetTable_snd_lt alphabet) text _ (List.length_replicate ..) k,
    getD_replicate_zero]

theorem generateBinaryMatrix_binary (alphabet : Alphabet) (text : List Nat) :
    ∀ b ∈ generateBinaryMatrix alphabet text, b = 0 ∨ b = 1 := by
  intro b hb
  rw [List.mem_iff_getElem] at hb
  obtain ⟨k, hklt, hk⟩ := hb
  have hgd := generateBinaryMatrix_getD alphabet text k
  rw [List.getD_eq_getElem _ _ hklt, hk] at hgd
  rw [hgd]
  split
  · right
    rfl
  · left
    rfl

theorem hebrew_lookup_hebrewChars :
    ∀ i < 27, hebrewAlphabet.lookup (hebrewChars.getD i 0) = some i := by decide

/-- The regeneration half of C10: for a 27-bit binary vector `v`, building a
HEBREW `Word` from `binaryToHebrewText v` recomputes exactly `v` as the
word's presence vector. -/
theorem binaryToHebrewText_roundtrip (v : List Nat) (hlen : v.length = 27)
    (hbin : ∀ b ∈ v, b = 0 ∨ b = 1) :
    generateBinaryMatrix Alphabet.HEBREW (binaryToHebrewText v) = v := by
  have hlen1 : (generateBinaryMatrix Alphabet.HEBREW (binaryToHebrewText v)).length = 27 :=
    generateBinaryMatrix_length ..
  refine List.ext_getElem (by omega) ?_
  intro k hk1 hk2
  have hk27 : k < 27 := by omega
  have hgd := generateBinaryMatrix_getD Alphabet.HEBREW (binaryToHebrewText v) k
  rw [List.getD_eq_getElem _ _ hk1] at hgd
  rw [hgd]
  have hcond : (∃ c ∈ binaryToHebrewText v,
      (alphabetTable Alphabet.HEBREW).lookup c = some k) ↔ v.getD k 0 ≠ 0 := by
    rw [binaryToHebrewText, hlen, Nat.min_self]
    constructor
    · rintro ⟨c, hc, hlk⟩
      rw [List.mem_map] at hc
      obtain ⟨i, hi, rfl⟩ := hc
      rw [List.mem_filter, List.mem_range] at hi
      have hlk' := hebrew_lookup_hebrewChars i hi.1
      rw [show alphabetTable Alphabet.HEBREW = hebrewAlphabet from rfl, hlk'] at hlk
      have hik : i = k := by injection hlk
      rw [← hik]
      simpa using hi.2
    · intro hne
      refine ⟨hebrewChars.getD k 0, ?_, ?_⟩
      · rw [List.mem_map]
        exact ⟨k, List.mem_filter.mpr ⟨List.mem_range.mpr hk27, by simpa using hne⟩, rfl⟩
      · exact hebrew_lookup_hebrewChars k hk27
  rw [List.getD_eq_getElem _ _ hk2] at hcond
  have hvk : v[k] = 0 ∨ v[k] = 1 := hbin _ (v.getElem_mem hk2)
  by_cases hv : v[k] = 1
  · rw [if_pos (hcond.mpr (by omega)), hv]
  · have hv0 : v[k] = 0 := by
      rcases hvk with h | h
      · exact h
      · exact absurd h hv
    rw [if_neg (by rw [hcond]; omega), hv0]

theorem batchRow_binary (row : List Nat) (M : List (List Nat)) :
    ∀ b ∈ (List.range 27).map fun j => batchEntry row M j, b = 0 ∨ b = 1 := by
  intro b hb
  rw [List.mem_map] at hb
  obtain ⟨j, _, rfl⟩ := hb
  rw [batchEntry]
  split
  · right
    rfl
  · left
    rfl

/-- C10: constructing a HEBREW `Word` from `binaryToHebrewText(v)` regenerates
exactly `v` as its presence vector, and consequently
`StaticTranslator::translateWordSet` returns one output `Word` per input
`Word` whose presence vector is exactly the corresponding translated row. -/
theorem hebrewText_roundtrip_and_translateWordSet
    (v : List Nat) (hvlen : v.length = 27) (hvbin : ∀ b ∈ v, b = 0 ∨ b = 1)
    (words : List Word) (M : List (List Nat)) :
    (Word.mk (binaryToHebrewText v) Alphabet.HEBREW).binaryMatrix = v
    ∧ (translateWordSet words M).length = words.length
    ∧ ∀ k, k < words.length →
        ((translateWordSet words M).getD k (Word.mk [] Alphabet.HEBREW)).binaryMatrix
          = (matrixMultiplyBatch (words.map Word.binaryMatrix) M).getD k [] := by
  have hrowslen : (matrixMultiplyBatch (words.map Word.binaryMatrix) M).length = words.length := by
    rw [matrixMultiplyBatch, List.length_map, List.length_map]
  have hziplen :
      (words.zip (matrixMultiplyBatch (words.map Word.binaryMatrix) M)).length = words.length := by
    rw [List.length_zip, hrowslen, Nat.min_self]
  refine ⟨binaryToHebrewText_roundtrip v hvlen hvbin, ?_, ?_⟩
  · rw [translateWordSet]
    rw [List.length_map]
    exact hziplen
  · intro k hk
    have hrowk : (matrixMultiplyBatch (words.map Word.binaryMatrix) M).getD k []
        = (List.range 27).map
            fun j => batchEntry ((words.map Word.binaryMatrix).getD k []) M j := by
      rw [matrixMultiplyBatch,
        List.getD_eq_getElem _ _ (by rw [List.length_map, List.length_map]; omega),
        List.getElem_map, List.getD_eq_getElem _ _ (by rw [List.length_map]; omega)]
    have h1 : (translateWordSet words M).getD k (Word.mk [] Alphabet.HEBREW)
        = Word.mk
            (binaryToHebrewText
              ((matrixMultiplyBatch (words.map Word.binaryMatrix) M).getD k []))
            Alphabet.HEBREW := by
      rw [translateWordSet,
        List.getD_eq_getElem _ _ (by rw [List.length_map, hziplen]; omega),
        List.getElem_map, List.getElem_zip,
        List.getD_eq_getElem _ _ (by rw [hrowslen]; omega)]
    rw [h1]
    show generateBinaryMatrix Alphabet.HEBREW
        (binaryToHebrewText ((matrixMultiplyBatch (words.map Word.binaryMatrix) M).getD k []))
      = (matrixMultiplyBatch (words.map Word.binaryMatrix) M).getD k []
    refine binaryToHebrewText_roundtrip _ ?_ ?_
    · rw [hrowk, List.length_map, List.length_range]
    · rw [hrowk]
      exact batchRow_binary _ _

theorem hebrewText_roundtrip_and_translateWordSet_witness :
    ((List.replicate 27 1).length = 27)
    ∧ (Word.mk (binaryToHebrewText (List.replicate 27 1)) Alphabet.HEBREW).binaryMatrix
        = List.replicate 27 1 :=
  ⟨by decide,
    (hebrewText_roundtrip_and_translateWordSet (List.replicate 27 1) (by decide)
      (fun b hb => Or.inr (List.eq_of_mem_replicate hb)) [] []).1⟩

/-! ### Theorems: lexicon membership (C7) -/

theorem contains_iff_mem_nat (L : List Nat) (x : Nat) : L.contains x = true ↔ x ∈ L := by
  simp

/-- C7: a Hebrew word inserted into the shared lexicon at build time (its
presence vector having at least one set bit, which for a vector produced by
`Word::generateBinaryMatrix` makes it pass `isValidHebrewBinaryVector`) is
found again when that same presence vector is queried: its hash is in the
hash set and its signature is in the signature set; and the per-word test of
`validateTranslation` counts a word as matched exactly when the vector is
valid AND both lookups succeed. -/
theorem lexicon_insert_then_query (lexWords : List Word) (w : Word) (hw : w ∈ lexWords)
    (hset : (w.binaryMatrix.any fun b => b == 1) = true) :
    binaryVectorToHash w.binaryMatrix ∈ lexiconHashes lexWords
    ∧ binaryVectorToSignature w.binaryMatrix ∈ lexiconSignatures lexWords
    ∧ matchesLexicon (lexiconHashes lexWords) (lexiconSignatures lexWords) w.binaryMatrix = true
    ∧ ∀ (hashes sigs : List Nat) (v : List Nat),
        matchesLexicon hashes sigs v = true ↔
          (isValidHebrewBinaryVector v = true ∧ binaryVectorToHash v ∈ hashes
            ∧ binaryVectorToSignature v ∈ sigs) := by
  have hlenw : w.binaryMatrix.length = 27 := generateBinaryMatrix_length ..
  have hvalid : isValidHebrewBinaryVector w.binaryMatrix = true := by
    rw [isValidHebrewBinaryVector, Bool.and_eq_true, Bool.and_eq_true]
    refine ⟨⟨?_, ?_⟩, hset⟩
    · simpa using hlenw
    · rw [List.all_eq_true]
      intro b hb
      rcases generateBinaryMatrix_binary w.alphabet w.text b hb with h | h <;> simp [h]
  have hmemh : binaryVectorToHash w.binaryMatrix ∈ lexiconHashes lexWords := by
    rw [lexiconHashes]
    exact List.mem_map.mpr ⟨w, List.mem_filter.mpr ⟨hw, hvalid⟩, rfl⟩
  have hmems : binaryVectorToSignature w.binaryMatrix ∈ lexiconSignatures lexWords := by
    rw [lexiconSignatures]
    exact List.mem_map.mpr ⟨w, List.mem_filter.mpr ⟨hw, hvalid⟩, rfl⟩
  have hiff : ∀ (hashes sigs : List Nat) (v : List Nat),
      matchesLexicon hashes sigs v = true ↔
        (isValidHebrewBinaryVector v = true ∧ binaryVectorToHash v ∈ hashes
          ∧ binaryVectorToSignature v ∈ sigs) := by
    intro hashes sigs v
    rw [matchesLexicon, Bool.and_eq_true, Bool.and_eq_true]
    constructor
    · rintro ⟨⟨h1, h2⟩, h3⟩
      exact ⟨h1, (contains_iff_mem_nat ..).mp h2, (contains_iff_mem_nat ..).mp h3⟩
    · rintro ⟨h1, h2, h3⟩
      exact ⟨⟨h1, (contains_iff_mem_nat ..).mpr h2⟩, (contains_iff_mem_nat ..).mpr h3⟩
  exact ⟨hmemh, hmems, (hiff ..).mpr ⟨hvalid, hmemh, hmems⟩, hiff⟩

theorem lexicon_insert_then_query_witness :
    matchesLexicon (lexiconHashes [Word.mk [0x05D0] Alphabet.HEBREW])
      (lexiconSignatures [Word.mk [0x05D0] Alphabet.HEBREW])
      (Word.mk [0x05D0] Alphabet.HEBREW).binaryMatrix = true :=
  (lexicon_insert_then_query [Word.mk [0x05D0] Alphabet.HEBREW]
    (Word.mk [0x05D0] Alphabet.HEBREW) (by decide) (by decide)).2.2.1

/-! ### Theorems: the scoring formula (C8) -/

/-- C8: for any validation result with `totalWords > 0`,
`calculateScore` is exactly
`clamp(matchPercentage + 5·log10(matchedWords+1) − penalty, 0, 100)` with
`penalty = (10 − totalWords)·2` when `totalWords < 10` and `0` otherwise;
and `validateTranslation` on an empty word set reports `matchPercentage = 0`
and `score = 0`. -/
theorem score_formula (log10 : Nat → ℚ) (scoreThreshold : ℚ) (hashes sigs : List Nat)
    (r : ValidationResult) (hr : 0 < r.totalWords) (translated : List Word)
    (hempty : translated.length = 0) :
    calculateScore log10 r
      = max 0 (min 100 (r.matchPercentage + 5 * log10 (r.matchedWords + 1)
          - (if r.totalWords < 10 then ((10 : ℚ) - r.totalWords) * 2 else 0)))
    ∧ (validateTranslation log10 scoreThreshold hashes sigs translated).matchPercentage = 0
    ∧ (validateTranslation log10 scoreThreshold hashes sigs translated).score = 0 := by
  refine ⟨?_, ?_, ?_⟩
  · rw [calculateScore, if_neg (by omega)]
    show max 0 (min 100 (r.matchPercentage + log10 (r.matchedWords + 1) * 5
      - (if r.totalWords < 10 then ((10 : ℚ) - r.totalWords) * 2 else 0))) = _
    rw [mul_comm (log10 (r.matchedWords + 1)) 5]
  · rw [validateTranslation, if_pos hempty]
  · rw [validateTranslation, if_pos hempty]

theorem score_formula_witness :
    0 < (5 : Nat) ∧ ([] : List Word).length = 0 ∧
    calculateScore (fun _ => 0) ⟨5, 2, 40, 0, false⟩
      = max 0 (min 100 ((40 : ℚ) + 5 * 0
          - (if (5 : Nat) < 10 then ((10 : ℚ) - (5 : Nat)) * 2 else 0))) :=
  ⟨by decide, rfl,
    (score_formula (fun _ => 0) 25 [] [] ⟨5, 2, 40, 0, false⟩ (by decide) [] rfl).1⟩

/-! ### Theorems: all-zero presence vectors and the WordSet (C9) -/

/-- C9 counterexample: the claim says a non-empty line with no alphabet
characters is dropped from the `WordSet`; in the code `readFromFile` keeps
every non-empty line, so the line `"Q"` (code point 81, not a Hebrew
letter) yields a `Word` in the set whose presence vector is all-zero. -/
theorem readFromLines_zero_vector_counterexample :
    ∃ w ∈ readFromLines [[81]] Alphabet.HEBREW, ∀ b ∈ w.binaryMatrix, b = 0 := by decide

/-- C9 amended: `WordSet::readFromFile` keeps every non-empty line — words
with all-zero presence vectors are NOT dropped there; the at-least-one-set-
bit invariant is enforced downstream instead: every fingerprint inserted by
`initializeSharedLexicon` comes from a word whose vector has a set bit. -/
theorem readFromLines_keeps_nonempty_lines (lines : List (List Nat)) (alphabet : Alphabet)
    (ws : List Word) :
    (∀ l ∈ lines, l ≠ [] → Word.mk l alphabet ∈ readFromLines lines alphabet)
    ∧ (∀ w ∈ readFromLines lines alphabet, w.text ≠ [])
    ∧ (∀ h ∈ lexiconHashes ws, ∃ w ∈ ws, (w.binaryMatrix.any fun b => b == 1) = true
        ∧ h = binaryVectorToHash w.binaryMatrix)
    ∧ (∀ s ∈ lexiconSignatures ws, ∃ w ∈ ws, (w.binaryMatrix.any fun b => b == 1) = true
        ∧ s = binaryVectorToSignature w.binaryMatrix) := by
  refine ⟨?_, ?_, ?_, ?_⟩
  · intro l hl hne
    rw [readFromLines]
    refine List.mem_map.mpr ⟨l, List.mem_filter.mpr ⟨hl, ?_⟩, rfl⟩
    simpa [List.isEmpty_iff] using hne
  · intro w hw
    rw [readFromLines] at hw
    rw [List.mem_map] at hw
    obtain ⟨l, hl, rfl⟩ := hw
    rw [List.mem_filter] at hl
    simpa [List.isEmpty_iff] using hl.2
  · intro h hh
    rw [lexiconHashes] at hh
    rw [List.mem_map] at hh
    obtain ⟨w, hwmem, rfl⟩ := hh
    rw [List.mem_filter, isValidHebrewBinaryVector, Bool.and_eq_true, Bool.and_eq_true] at hwmem
    exact ⟨w, hwmem.1, hwmem.2.2, rfl⟩
  · intro s hs
    rw [lexiconSignatures] at hs
    rw [List.mem_map] at hs
    obtain ⟨w, hwmem, rfl⟩ := hs
    rw [List.mem_filter, isValidHebrewBinaryVector, Bool.and_eq_true, Bool.and_eq_true] at hwmem
    exact ⟨w, hwmem.1, hwmem.2.2, rfl⟩

theorem readFromLines_keeps_nonempty_lines_witness :
    Word.mk [81] Alphabet.HEBREW ∈ readFromLines [[81]] Alphabet.HEBREW :=
  (readFromLines_keeps_nonempty_lines [[81]] Alphabet.HEBREW []).1 [81]
    (by decide) (by decide)

/-! ### Theorems: scheduler window invariants (C4) -/

theorem schedInv_fresh : SchedInv freshScheduler :=
  ⟨by simp [freshScheduler], by simp [freshScheduler], Nat.le_refl 0, rfl⟩

theorem setFirstBlock_map_blockIndex (idx : Nat) (nb : BlockInfo) (hnb : nb.blockIndex = idx) :
    ∀ w : List BlockInfo,
      (setFirstBlock w idx nb).map BlockInfo.blockIndex = w.map BlockInfo.blockIndex := by
  intro w
  induction w with
  | nil => rfl
  | cons b t ih =>
    rw [setFirstBlock]
    by_cases hb : b.blockIndex = idx
    · rw [if_pos hb, List.map_cons, List.map_cons, hnb, hb]
    · rw [if_neg hb, List.map_cons, List.map_cons, ih]

theorem setFirstBlock_pendingCount (idx : Nat) (nb : BlockInfo)
    (hnb : nb.state = BlockState.COMPLETED) :
    ∀ (w : List BlockInfo) (b : BlockInfo), findBlockInWindow w idx = some b →
      b.state = BlockState.PENDING →
      pendingCount (setFirstBlock w idx nb) + 1 = pendingCount w := by
  intro w
  induction w with
  | nil =>
    intro b hfind _
    rw [findBlockInWindow] at hfind
    cases hfind
  | cons a t ih =>
    intro b hfind hbp
    rw [findBlockInWindow] at hfind
    by_cases ha : a.blockIndex = idx
    · rw [List.find?_cons_of_pos _ (by simpa using ha)] at hfind
      injection hfind with hab
      subst hab
      rw [setFirstBlock, if_pos ha]
      simp only [pendingCount, List.countP_cons, hnb, hbp,
        show (BlockState.COMPLETED == BlockState.PENDING) = false from rfl,
        show (BlockState.PENDING == BlockState.PENDING) = true from rfl]
      simp
    · rw [List.find?_cons_of_neg _ (by simpa using ha)] at hfind
      rw [setFirstBlock, if_neg ha]
      have hrec := ih b (by rw [findBlockInWindow]; exact hfind) hbp
      simp only [pendingCount, List.countP_cons] at hrec ⊢
      omega

theorem assignFirstPending_preserves (now : Nat) (tid : Int) :
    ∀ (w w' : List BlockInfo) (idx : Nat), assignFirstPending now tid w = some (w', idx) →
      w'.map BlockInfo.blockIndex = w.map BlockInfo.blockIndex
      ∧ pendingCount w' = pendingCount w := by
  intro w
  induction w with
  | nil =>
    intro w' idx h
    rw [assignFirstPending] at h
    cases h
  | cons b t ih =>
    intro w' idx h
    rw [assignFirstPending] at h
    by_cases hb : b.state = BlockState.PENDING ∧ b.assignedThreadId = -1
    · rw [if_pos hb] at h
      injection h with hpair
      injection hpair with hw hidx
      subst hw
      constructor
      · rfl
      · simp [pendingCount, List.countP_cons]
    · rw [if_neg hb] at h
      cases hrec : assignFirstPending now tid t with
      | none =>
        rw [hrec] at h
        cases h
      | some pr =>
        obtain ⟨t', idx0⟩ := pr
        rw [hrec] at h
        injection h with hpair
        injection hpair with hw hidx
        subst hw
        obtain ⟨hmap, hpc⟩ := ih t' idx0 hrec
        constructor
        · rw [List.map_cons, List.map_cons, hmap]
        · simp only [pendingCount, List.countP_cons] at hpc ⊢
          omega

theorem pruneLoop_inv :
    ∀ (w : List BlockInfo) (oldest next : Nat),
      (∀ i ∈ w.map BlockInfo.blockIndex, oldest ≤ i ∧ i < next) →
      (w.map BlockInfo.blockIndex).Pairwise (· < ·) →
      oldest ≤ next → next < 2 ^ 64 →
      (∀ i ∈ (pruneLoop w oldest).1.map BlockInfo.blockIndex,
          (pruneLoop w oldest).2 ≤ i ∧ i < next)
      ∧ ((pruneLoop w oldest).1.map BlockInfo.blockIndex).Pairwise (· < ·)
      ∧ (pruneLoop w oldest).2 ≤ next
      ∧ pendingCount (pruneLoop w oldest).1 = pendingCount w := by
  intro w
  induction w with
  | nil =>
    intro oldest next _ _ h3 _
    exact ⟨by simp [pruneLoop], by simp [pruneLoop], h3, rfl⟩
  | cons b t ih =>
    intro oldest next h1 h2 h3 h4
    rw [pruneLoop]
    by_cases hb : b.state = BlockState.COMPLETED ∧ b.blockIndex = oldest
    · rw [if_pos hb]
      have hbb := h1 b.blockIndex (by simp)
      have hbi := hb.2
      have hwrap : (oldest + 1) % 2 ^ 64 = oldest + 1 := Nat.mod_eq_of_lt (by omega)
      rw [hwrap]
      rw [List.map_cons, List.pairwise_cons] at h2
      have ht1 : ∀ i ∈ t.map BlockInfo.blockIndex, oldest + 1 ≤ i ∧ i < next := by
        intro i hi
        have hlt := h2.1 i hi
        have hibound := h1 i (by simp [hi])
        omega
      have hrec := ih (oldest + 1) next ht1 h2.2 (by omega) h4
      refine ⟨hrec.1, hrec.2.1, hrec.2.2.1, ?_⟩
      rw [hrec.2.2.2]
      simp [pendingCount, List.countP_cons, hb.1,
        show (BlockState.COMPLETED == BlockState.PENDING) = false from rfl]
    · rw [if_neg hb]
      exact ⟨h1, h2, h3, rfl⟩

theorem completeBlockForThread_counters (now : Nat) (tid : Int) (s : SchedulerState) :
    (completeBlockForThread now tid s).state.nextBlockToGenerate
        = s.state.nextBlockToGenerate
    ∧ (completeBlockForThread now tid s).state.totalBlocksGenerated
        = s.state.totalBlocksGenerated := by
  rw [completeBlockForThread]
  cases hlk : s.threadToBlock.lookup tid with
  | none => exact ⟨rfl, rfl⟩
  | some idx =>
    dsimp only
    cases hfd : findBlockInWindow s.blockWindow idx with
    | none => exact ⟨rfl, rfl⟩
    | some b =>
      dsimp only
      split
      · exact ⟨rfl, rfl⟩
      · exact ⟨rfl, rfl⟩

theorem removeCompleted_counters (s : SchedulerState) :
    (removeCompletedSequentialBlocks s).state.nextBlockToGenerate
        = s.state.nextBlockToGenerate
    ∧ (removeCompletedSequentialBlocks s).state.totalBlocksGenerated
        = s.state.totalBlocksGenerated :=
  ⟨rfl, rfl⟩

theorem addBlockToWindow_state (now : Nat) (idx : Nat) (tid : Int) (s : SchedulerState) :
    (addBlockToWindow now idx tid s).state = s.state := by
  rw [addBlockToWindow]
  split
  · rfl
  · rfl

theorem schedInv_completeBlockForThread (now : Nat) (tid : Int) (s : SchedulerState)
    (h : SchedInv s) (hc : s.state.totalBlocksCompleted + 1 < 2 ^ 64) :
    SchedInv (completeBlockForThread now tid s) := by
  rw [completeBlockForThread]
  cases hlk : s.threadToBlock.lookup tid with
  | none => exact h
  | some idx =>
    dsimp only
    cases hfd : findBlockInWindow s.blockWindow idx with
    | none => exact h
    | some b =>
      dsimp only
      by_cases hcond : b.state = BlockState.PENDING ∧ b.assignedThreadId = tid
      · rw [if_pos hcond]
        unfold SchedInv
        dsimp only
        have hbidx : b.blockIndex = idx := by
          rw [findBlockInWindow] at hfd
          simpa using List.find?_some hfd
        have hmap := setFirstBlock_map_blockIndex idx
          { b with state := BlockState.COMPLETED, completedTime := now } hbidx s.blockWindow
        have hpc := setFirstBlock_pendingCount idx
          { b with state := BlockState.COMPLETED, completedTime := now } rfl
          s.blockWindow b hfd hcond.1
        refine ⟨?_, ?_, h.2.2.1, ?_⟩
        · intro i hi
          rw [hmap] at hi
          exact h.1 i hi
        · rw [hmap]
          exact h.2.1
        · have h4 := h.2.2.2
          omega
      · rw [if_neg hcond]
        exact h

theorem schedInv_removeCompletedSequentialBlocks (s : SchedulerState)
    (h : SchedInv s) (hn : s.state.nextBlockToGenerate < 2 ^ 64) :
    SchedInv (removeCompletedSequentialBlocks s) := by
  rw [removeCompletedSequentialBlocks]
  unfold SchedInv
  dsimp only
  have key := pruneLoop_inv s.blockWindow s.state.oldestTrackedBlock
    s.state.nextBlockToGenerate h.1 h.2.1 h.2.2.1 hn
  refine ⟨key.1, key.2.1, key.2.2.1, ?_⟩
  have h4 := h.2.2.2
  have h5 := key.2.2.2
  omega

theorem schedInv_completeCurrentBlock (now : Nat) (tid : Int) (s : SchedulerState)
    (h : SchedInv s) (hc : s.state.totalBlocksCompleted + 1 < 2 ^ 64)
    (hn : s.state.nextBlockToGenerate < 2 ^ 64) :
    SchedInv (completeCurrentBlock now tid s) :=
  schedInv_removeCompletedSequentialBlocks _
    (schedInv_completeBlockForThread now tid s h hc)
    (by rw [(completeBlockForThread_counters now tid s).1]; exact hn)

theorem schedInv_createNewBlockForThread (blockSize now : Nat) (tid : Int) (s : SchedulerState)
    (h : SchedInv s) (hnext : s.state.nextBlockToGenerate + 1 < 2 ^ 64)
    (hgen : s.state.totalBlocksGenerated + 1 < 2 ^ 64) :
    SchedInv (createNewBlockForThread blockSize now tid s) := by
  rw [createNewBlockForThread]
  split
  · exact h
  · have hnone : findBlockInWindow s.blockWindow s.state.nextBlockToGenerate = none := by
      rw [findBlockInWindow, List.find?_eq_none]
      intro b hb
      have hbnd := h.1 _ (List.mem_map_of_mem _ hb)
      simp only [beq_iff_eq]
      omega
    rw [addBlockToWindow, hnone]
    simp only [Option.isSome_none, Bool.false_eq_true, if_false]
    unfold SchedInv
    dsimp only
    refine ⟨?_, ?_, ?_, ?_⟩
    · intro i hi
      rw [List.map_append] at hi
      rcases List.mem_append.mp hi with hi' | hi'
      · have := h.1 i hi'
        omega
      · simp at hi'
        subst hi'
        have := h.2.2.1
        omega
    · rw [List.map_append, List.pairwise_append]
      refine ⟨h.2.1, by simp, ?_⟩
      intro x hx y hy
      simp at hy
      subst hy
      exact (h.1 x hx).2
    · have := h.2.2.1
      omega
    · have h4 := h.2.2.2
      simp only [pendingCount, List.countP_append, List.countP_cons, List.countP_nil,
        show (BlockState.PENDING == BlockState.PENDING) = true from rfl] at h4 ⊢
      simp only [if_true]
      omega

theorem createNewBlockForThread_counters_le (blockSize now : Nat) (tid : Int)
    (s : SchedulerState) :
    (createNewBlockForThread blockSize now tid s).state.nextBlockToGenerate
        ≤ s.state.nextBlockToGenerate + 1
    ∧ (createNewBlockForThread blockSize now tid s).state.totalBlocksGenerated
        ≤ s.state.totalBlocksGenerated + 1 := by
  rw [createNewBlockForThread]
  split
  · exact ⟨Nat.le_succ _, Nat.le_succ _⟩
  · dsimp only
    rw [addBlockToWindow_state]
    exact ⟨Nat.mod_le _ _, Nat.mod_le _ _⟩

theorem schedInv_getNextBlock (blockSize now : Nat) (tid : Int) (s : SchedulerState)
    (h : SchedInv s) (hc : s.state.totalBlocksCompleted + 1 < 2 ^ 64)
    (hnext : s.state.nextBlockToGenerate + 1 < 2 ^ 64)
    (hgen : s.state.totalBlocksGenerated + 1 < 2 ^ 64) :
    SchedInv (getNextBlock blockSize now tid s) := by
  simp only [getNextBlock]
  set s1 := if (s.threadToBlock.lookup tid).isSome then completeBlockForThread now tid s else s
    with hs1
  have h1 : SchedInv s1 := by
    rw [hs1]
    split
    · exact schedInv_completeBlockForThread now tid s h hc
    · exact h
  have hcnt : s1.state.nextBlockToGenerate = s.state.nextBlockToGenerate
      ∧ s1.state.totalBlocksGenerated = s.state.totalBlocksGenerated := by
    rw [hs1]
    split
    · exact completeBlockForThread_counters now tid s
    · exact ⟨rfl, rfl⟩
  split
  · exact h1
  · split
    · rename_i w' idx heq
      obtain ⟨hmap, hpc⟩ := assignFirstPending_preserves now tid s1.blockWindow w' idx heq
      unfold SchedInv
      dsimp only
      refine ⟨?_, ?_, h1.2.2.1, ?_⟩
      · intro i hi
        rw [hmap] at hi
        exact h1.1 i hi
      · rw [hmap]
        exact h1.2.1
      · rw [hpc]
        exact h1.2.2.2
    · exact schedInv_createNewBlockForThread blockSize now tid s1 h1
        (by rw [hcnt.1]; exact hnext) (by rw [hcnt.2]; exact hgen)

theorem getNextBlock_counters_le (blockSize now : Nat) (tid : Int) (s : SchedulerState) :
    (getNextBlock blockSize now tid s).state.nextBlockToGenerate
        ≤ s.state.nextBlockToGenerate + 1
    ∧ (getNextBlock blockSize now tid s).state.totalBlocksGenerated
        ≤ s.state.totalBlocksGenerated + 1 := by
  simp only [getNextBlock]
  set s1 := if (s.threadToBlock.lookup tid).isSome then completeBlockForThread now tid s else s
    with hs1
  have hcnt : s1.state.nextBlockToGenerate = s.state.nextBlockToGenerate
      ∧ s1.state.totalBlocksGenerated = s.state.totalBlocksGenerated := by
    rw [hs1]
    split
    · exact completeBlockForThread_counters now tid s
    · exact ⟨rfl, rfl⟩
  split
  · exact ⟨by rw [hcnt.1]; omega, by rw [hcnt.2]; omega⟩
  · split
    · exact ⟨by rw [show ({ s1 with blockWindow := _, threadToBlock := _ } :
          SchedulerState).state.nextBlockToGenerate = s1.state.nextBlockToGenerate from rfl,
          hcnt.1]; omega,
        by rw [show ({ s1 with blockWindow := _, threadToBlock := _ } :
          SchedulerState).state.totalBlocksGenerated = s1.state.totalBlocksGenerated from rfl,
          hcnt.2]; omega⟩
    · have hle := createNewBlockForThread_counters_le blockSize now tid s1
      exact ⟨by rw [hcnt.1] at hle; omega, by rw [hcnt.2] at hle; omega⟩

theorem completeCurrentBlock_counters (now : Nat) (tid : Int) (s : SchedulerState) :
    (completeCurrentBlock now tid s).state.nextBlockToGenerate
        = s.state.nextBlockToGenerate
    ∧ (completeCurrentBlock now tid s).state.totalBlocksGenerated
        = s.state.totalBlocksGenerated := by
  have h1 := completeBlockForThread_counters now tid s
  have h2 := removeCompleted_counters (completeBlockForThread now tid s)
  exact ⟨h2.1.trans h1.1, h2.2.trans h1.2⟩

theorem schedBound_applyOp (blockSize n : Nat) (s : SchedulerState) (op : SchedulerOp)
    (hb : SchedBound n s) : SchedBound (n + 1) (applyOp blockSize s op) := by
  obtain ⟨hb1, hb2⟩ := hb
  cases op with
  | acquire tid now =>
    simp only [applyOp]
    have h := getNextBlock_counters_le blockSize now tid s
    exact ⟨by have := h.1; omega, by have := h.2; omega⟩
  | complete tid now =>
    simp only [applyOp]
    have h := completeCurrentBlock_counters now tid s
    exact ⟨by rw [h.1]; omega, by rw [h.2]; omega⟩
  | reset => exact ⟨Nat.zero_le _, Nat.zero_le _⟩

theorem schedInvB_applyOp (blockSize n : Nat) (s : SchedulerState) (op : SchedulerOp)
    (h : SchedInv s) (hb : SchedBound n s) (hn : n + 1 < 2 ^ 64) :
    SchedInv (applyOp blockSize s op) := by
  obtain ⟨hb1, hb2⟩ := hb
  have hcomp : s.state.totalBlocksCompleted ≤ s.state.totalBlocksGenerated := by
    have h4 := h.2.2.2
    omega
  cases op with
  | acquire tid now =>
    exact schedInv_getNextBlock blockSize now tid s h (by omega) (by omega) (by omega)
  | complete tid now =>
    exact schedInv_completeCurrentBlock now tid s h (by omega) (by omega)
  | reset => exact schedInv_fresh

theorem schedInvB_foldl (blockSize : Nat) :
    ∀ (l : List SchedulerOp) (s : SchedulerState) (n : Nat),
      SchedInv s → SchedBound n s → n + l.length < 2 ^ 64 →
      SchedInv (l.foldl (applyOp blockSize) s) := by
  intro l
  induction l with
  | nil =>
    intro s n hs _ _
    exact hs
  | cons op t ih =>
    intro s n hs hb hlen
    rw [List.foldl_cons]
    rw [List.length_cons] at hlen
    exact ih (applyOp blockSize s op) (n + 1)
      (schedInvB_applyOp blockSize n s op hs hb (by omega))
      (schedBound_applyOp blockSize n s op hb)
      (by omega)

/-- C4 amended: after any sequence of fewer than 2^64 `getNextBlock`,
`completeCurrentBlock` and `reset` calls on a fresh `MappingGenerator` —
i.e. before the `uint64_t` block counters can wrap around — the window
invariants hold: every tracked block index lies in `[oldestTrackedBlock,
nextBlockToGenerate)`, the window is strictly ascending in block index (so
has no duplicates), and `totalBlocksCompleted ≤ totalBlocksGenerated`.
(Without the length bound the invariants fail: see the C4 counterexample,
where `nextBlockToGenerate` wraps to 0.) -/
theorem scheduler_window_invariants (blockSize : Nat) (ops : List SchedulerOp)
    (hops : ops.length < 2 ^ 64) :
    (∀ b ∈ (runOps blockSize ops).blockWindow,
        (runOps blockSize ops).state.oldestTrackedBlock ≤ b.blockIndex
        ∧ b.blockIndex < (runOps blockSize ops).state.nextBlockToGenerate)
    ∧ ((runOps blockSize ops).blockWindow.map BlockInfo.blockIndex).Pairwise (· < ·)
    ∧ (runOps blockSize ops).state.totalBlocksCompleted
        ≤ (runOps blockSize ops).state.totalBlocksGenerated := by
  have h : SchedInv (runOps blockSize ops) := by
    rw [runOps]
    exact schedInvB_foldl blockSize ops freshScheduler 0 schedInv_fresh
      ⟨Nat.le_refl 0, Nat.le_refl 0⟩ (by omega)
  refine ⟨?_, h.2.1, ?_⟩
  · intro b hb
    exact h.1 _ (List.mem_map_of_mem _ hb)
  · have h4 := h.2.2.2
    omega

theorem scheduler_window_invariants_witness :
    ([SchedulerOp.acquire 0 1, SchedulerOp.complete 0 2,
        SchedulerOp.acquire 1 3] : List SchedulerOp).length < 2 ^ 64
    ∧ ((∀ b ∈ (runOps 9 [SchedulerOp.acquire 0 1, SchedulerOp.complete 0 2,
            SchedulerOp.acquire 1 3]).blockWindow,
          (runOps 9 [SchedulerOp.acquire 0 1, SchedulerOp.complete 0 2,
            SchedulerOp.acquire 1 3]).state.oldestTrackedBlock ≤ b.blockIndex
          ∧ b.blockIndex < (runOps 9 [SchedulerOp.acquire 0 1, SchedulerOp.complete 0 2,
            SchedulerOp.acquire 1 3]).state.nextBlockToGenerate)
      ∧ ((runOps 9 [SchedulerOp.acquire 0 1, SchedulerOp.complete 0 2,
            SchedulerOp.acquire 1 3]).blockWindow.map BlockInfo.blockIndex).Pairwise (· < ·)
      ∧ (runOps 9 [SchedulerOp.acquire 0 1, SchedulerOp.complete 0 2,
            SchedulerOp.acquire 1 3]).state.totalBlocksCompleted
          ≤ (runOps 9 [SchedulerOp.acquire 0 1, SchedulerOp.complete 0 2,
            SchedulerOp.acquire 1 3]).state.totalBlocksGenerated) :=
  ⟨by decide,
    scheduler_window_invariants 9
      [SchedulerOp.acquire 0 1, SchedulerOp.complete 0 2, SchedulerOp.acquire 1 3]
      (by decide)⟩

theorem pump_step (k : Nat) (hk : k + 1 < 2 ^ 64) :
    applyOp (2 ^ 63) (applyOp (2 ^ 63)
        (⟨⟨k, k, k, k, false⟩, [], []⟩ : SchedulerState) (SchedulerOp.acquire 2 0))
      (SchedulerOp.complete 2 0)
      = ⟨⟨k + 1, k + 1, k + 1, k + 1, false⟩, [], []⟩ := by
  have hTC : ¬ TOTAL_COMBINATIONS ≤ k * 2 ^ 63 % 2 ^ 64 := by
    rw [TOTAL_COMBINATIONS]
    omega
  have hTC2 : ¬ TOTAL_COMBINATIONS ≤ k * 9223372036854775808 % 18446744073709551616 := by
    rw [TOTAL_COMBINATIONS]
    omega
  have hm : (k + 1) % 2 ^ 64 = k + 1 := Nat.mod_eq_of_lt hk
  have hm2 : (k + 1) % 18446744073709551616 = k + 1 := by omega
  simp [applyOp, getNextBlock, completeCurrentBlock, completeBlockForThread,
    removeCompletedSequentialBlocks, pruneLoop, createNewBlockForThread, addBlockToWindow,
    assignFirstPending, findBlockInWindow, setFirstBlock, mapInsert, mapErase, List.lookup,
    hTC, hTC2, hm, hm2]

theorem runOps_pump (k : Nat) (hk : k < 2 ^ 64) :
    runOps (2 ^ 63) (acquireCompletePairs k)
      = ⟨⟨k, k, k, k, false⟩, [], []⟩ := by
  induction k with
  | zero => rfl
  | succ j ih =>
    rw [acquireCompletePairs, runOps, List.foldl_append,
      show List.foldl (applyOp (2 ^ 63)) freshScheduler (acquireCompletePairs j)
        = runOps (2 ^ 63) (acquireCompletePairs j) from rfl,
      ih (by omega)]
    simp only [List.foldl_cons, List.foldl_nil]
    exact pump_step j hk

/-- C4 counterexample, refuting the claim as stated (invariants after *any*
sequence of calls): the `uint64_t` counters wrap.  With `blockSize = 2^63`
the completion check compares `nextBlockToGenerate * blockSize`, computed
modulo 2^64 — always 0 or 2^63, both below `TOTAL_COMBINATIONS` — so block
creation never stops.  After 2^64 − 1 acquire/complete rounds and one more
`getNextBlock`, the new block gets index 2^64 − 1 and `nextBlockToGenerate`
wraps to 0, so the window holds a block whose `blockIndex` violates the
claimed bound `blockIndex < nextBlockToGenerate` (and `oldestTrackedBlock ≤
nextBlockToGenerate` fails as well). -/
theorem scheduler_window_invariants_counterexample :
    ∃ b ∈ (runOps (2 ^ 63) (acquireCompletePairs (2 ^ 64 - 1)
        ++ [SchedulerOp.acquire 2 0])).blockWindow,
      (runOps (2 ^ 63) (acquireCompletePairs (2 ^ 64 - 1)
        ++ [SchedulerOp.acquire 2 0])).state.nextBlockToGenerate ≤ b.blockIndex := by
  have hrun : runOps (2 ^ 63) (acquireCompletePairs (2 ^ 64 - 1) ++ [SchedulerOp.acquire 2 0])
      = ⟨⟨0, 2 ^ 64 - 1, 0, 2 ^ 64 - 1, false⟩,
         [⟨2 ^ 64 - 1, BlockState.PENDING, 2, 0, 0⟩], [(2, 2 ^ 64 - 1)]⟩ := by
    rw [runOps, List.foldl_append,
      show List.foldl (applyOp (2 ^ 63)) freshScheduler (acquireCompletePairs (2 ^ 64 - 1))
        = runOps (2 ^ 63) (acquireCompletePairs (2 ^ 64 - 1)) from rfl,
      runOps_pump (2 ^ 64 - 1) (by omega)]
    decide
  rw [hrun]
  exact ⟨⟨2 ^ 64 - 1, BlockState.PENDING, 2, 0, 0⟩, by simp, Nat.zero_le _⟩

/-! ### Theorems: checkpoint save/load roundtrip (C3) — parsing infrastructure -/

theorem natToCodes_digit {n : Nat} : ∀ c ∈ natToCodes n, 48 ≤ c ∧ c ≤ 57 := by
  intro c hc
  rw [natToCodes] at hc
  split at hc
  · simp at hc
    omega
  · rw [List.mem_map] at hc
    obtain ⟨d, hd, rfl⟩ := hc
    rw [List.mem_reverse] at hd
    have := Nat.digits_lt_base (by norm_num) hd
    omega

theorem natToCodes_ne_nil (n : Nat) : natToCodes n ≠ [] := by
  rw [natToCodes]
  split
  · simp
  · rename_i hn
    simp only [ne_eq, List.map_eq_nil_iff, List.reverse_eq_nil_iff]
    exact Nat.digits_ne_nil_iff_ne_zero.mpr hn

theorem intToCodes_mem {i : Int} : ∀ c ∈ intToCodes i, (48 ≤ c ∧ c ≤ 57) ∨ c = 45 := by
  intro c hc
  rw [intToCodes] at hc
  split at hc
  · rcases List.mem_cons.mp hc with rfl | hc'
    · right
      rfl
    · left
      exact natToCodes_digit c hc'
  · left
    exact natToCodes_digit c hc

theorem parseNat_digits_aux :
    ∀ (ds : List Nat) (acc : Nat),
      (ds.map fun d => 48 + d).foldl (fun a c => a * 10 + (c - 48)) acc
      = ds.foldl (fun a d => a * 10 + d) acc := by
  intro ds
  induction ds with
  | nil => intro acc; rfl
  | cons d t ih =>
    intro acc
    rw [List.map_cons, List.foldl_cons, List.foldl_cons, Nat.add_sub_cancel_left]
    exact ih _

theorem bigEnd_reverse_digits :
    ∀ (ds : List Nat) (acc : Nat),
      ds.reverse.foldl (fun a d => a * 10 + d) acc
      = acc * 10 ^ ds.length + Nat.ofDigits 10 ds := by
  intro ds
  induction ds with
  | nil => intro acc; simp
  | cons d t ih =>
    intro acc
    rw [List.reverse_cons, List.foldl_append, ih acc, List.foldl_cons, List.foldl_nil,
      Nat.ofDigits_cons, List.length_cons]
    ring

theorem parseNat_natToCodes (n : Nat) : parseNat (natToCodes n) = n := by
  rw [parseNat, natToCodes]
  split
  · rename_i h
    rw [h]
    rfl
  · rw [show (Nat.digits 10 n).reverse.map (fun d => 48 + d)
        = ((Nat.digits 10 n).reverse).map (fun d => 48 + d) from rfl,
      parseNat_digits_aux, bigEnd_reverse_digits]
    simp [Nat.ofDigits_digits]

theorem natToCodes_head_digit (n : Nat) :
    ∃ d t, natToCodes n = d :: t ∧ 48 ≤ d ∧ d ≤ 57 := by
  cases h : natToCodes n with
  | nil => exact absurd h (natToCodes_ne_nil n)
  | cons d t =>
    refine ⟨d, t, rfl, ?_⟩
    have := natToCodes_digit (n := n) d (by rw [h]; exact List.mem_cons_self d t)
    exact this

theorem parseInt_intToCodes (i : Int) : parseInt (intToCodes i) = i := by
  rw [intToCodes]
  split
  · rename_i hneg
    rw [parseInt, if_pos (by simp)]
    rw [List.tail_cons, parseNat_natToCodes]
    omega
  · rename_i hpos
    obtain ⟨d, t, hdt, hd1, hd2⟩ := natToCodes_head_digit i.toNat
    rw [parseInt, hdt, if_neg (by simp; omega)]
    rw [← hdt, parseNat_natToCodes]
    omega

theorem isPrefixOf_append_self {pat rest : List Nat} : pat.isPrefixOf (pat ++ rest) = true := by
  rw [List.isPrefixOf_iff_prefix]
  exact List.prefix_append pat rest

theorem findSub_self_append (pat rest : List Nat) (h : pat ≠ []) :
    findSub pat (pat ++ rest) = some 0 := by
  cases pat with
  | nil => exact absurd rfl h
  | cons a p =>
    rw [List.cons_append, findSub, ← List.cons_append, if_pos isPrefixOf_append_self]

theorem findSub_isSome_cons (pat : List Nat) (a : Nat) (l : List Nat)
    (h : (findSub pat l).isSome = true) : (findSub pat (a :: l)).isSome = true := by
  rw [findSub]
  split
  · rfl
  · simpa using h

theorem findSub_isSome_append_left (pat : List Nat) :
    ∀ (A l : List Nat), (findSub pat l).isSome = true →
      (findSub pat (A ++ l)).isSome = true := by
  intro A
  induction A with
  | nil => intro l h; exact h
  | cons a A' ih =>
    intro l h
    rw [List.cons_append]
    exact findSub_isSome_cons pat a (A' ++ l) (ih l h)

theorem findSub_mem (pat : List Nat) :
    ∀ l : List Nat, (findSub pat l).isSome = true → ∀ a ∈ pat, a ∈ l := by
  intro l
  induction l with
  | nil =>
    intro h a ha
    rw [findSub] at h
    split at h
    · rename_i hp
      rw [List.isEmpty_iff] at hp
      rw [hp] at ha
      cases ha
    · cases h
  | cons c rest ih =>
    intro h a ha
    rw [findSub] at h
    split at h
    · rename_i hp
      rw [List.isPrefixOf_iff_prefix] at hp
      exact hp.subset ha
    · have h' : (findSub pat rest).isSome = true := by
        cases hx : findSub pat rest
        · rw [hx] at h
          simp at h
        · rfl
      exact List.mem_cons_of_mem c (ih h' a ha)

theorem findSub_none_of_missing {pat l : List Nat} {c : Nat} (hc : c ∈ pat) (hl : c ∉ l) :
    findSub pat l = none := by
  cases hfs : findSub pat l with
  | none => rfl
  | some i =>
    exact absurd (findSub_mem pat l (by rw [hfs]; rfl) c hc) hl


theorem isPrefixOf_single (c a : Nat) (t : List Nat) :
    ([c].isPrefixOf (a :: t)) = (c == a) := by
  show (c == a && List.isPrefixOf [] t) = (c == a)
  rw [show (List.isPrefixOf ([] : List Nat) t) = true from by cases t <;> rfl, Bool.and_true]

theorem findSub_single_left {c : Nat} :
    ∀ (A B : List Nat) {i : Nat}, findSub [c] A = some i → findSub [c] (A ++ B) = some i := by
  intro A
  induction A with
  | nil =>
    intro B i h
    rw [findSub] at h
    simp at h
  | cons a A' ih =>
    intro B i h
    rw [List.cons_append, findSub, isPrefixOf_single]
    rw [findSub, isPrefixOf_single] at h
    by_cases hca : (c == a) = true
    · rw [if_pos hca] at h
      rw [if_pos hca]
      exact h
    · rw [if_neg hca] at h
      rw [if_neg hca]
      rw [Option.map_eq_some'] at h
      obtain ⟨j, hj, rfl⟩ := h
      rw [ih B hj]
      rfl

theorem findSub_single_right {c : Nat} :
    ∀ (A B : List Nat), findSub [c] A = none →
      findSub [c] (A ++ B) = (findSub [c] B).map (· + A.length) := by
  intro A
  induction A with
  | nil =>
    intro B _
    rw [List.nil_append, List.length_nil]
    cases findSub [c] B <;> simp
  | cons a A' ih =>
    intro B h
    rw [findSub, isPrefixOf_single] at h
    rw [List.cons_append, findSub, isPrefixOf_single]
    by_cases hca : (c == a) = true
    · rw [if_pos hca] at h
      cases h
    · rw [if_neg hca] at h
      rw [if_neg hca]
      have hA' : findSub [c] A' = none := by
        cases hx : findSub [c] A'
        · rfl
        · rw [hx] at h
          cases h
      rw [ih B hA', List.length_cons]
      cases findSub [c] B <;> simp [Nat.add_assoc]

theorem removeWs_append (A B : List Nat) : removeWs (A ++ B) = removeWs A ++ removeWs B := by
  rw [removeWs, removeWs, removeWs, List.filter_append]

theorem not_mem_natToCodes {c n : Nat} (h : c < 48 ∨ 57 < c) : c ∉ natToCodes n := by
  intro hc
  have := natToCodes_digit c hc
  omega

theorem not_mem_intToCodes {c : Nat} {i : Int} (h : (c < 48 ∨ 57 < c) ∧ c ≠ 45) :
    c ∉ intToCodes i := by
  intro hc
  rcases intToCodes_mem c hc with h' | h'
  · omega
  · exact h.2 h'

theorem removeWs_natToCodes (n : Nat) : removeWs (natToCodes n) = natToCodes n := by
  rw [removeWs]
  rw [List.filter_eq_self]
  intro c hc
  have := natToCodes_digit c hc
  simp [isSpaceCode]
  omega

theorem removeWs_intToCodes (i : Int) : removeWs (intToCodes i) = intToCodes i := by
  rw [removeWs]
  rw [List.filter_eq_self]
  intro c hc
  rcases intToCodes_mem c hc with h' | h'
  · simp [isSpaceCode]
    omega
  · subst h'
    simp [isSpaceCode]

theorem fieldNumValue_eval (Q : List Nat) (n : Nat) (hq : findSub [58] Q = none) :
    fieldNumValue (Q ++ 58 :: (natToCodes n ++ [44])) = n := by
  have hcolon : findSub [58] (Q ++ 58 :: (natToCodes n ++ [44])) = some Q.length := by
    rw [findSub_single_right Q _ hq,
      show (58 : Nat) :: (natToCodes n ++ [44]) = [58] ++ (natToCodes n ++ [44]) from rfl,
      findSub_self_append [58] _ (by decide)]
    simp
  have hdrop : (Q ++ 58 :: (natToCodes n ++ [44])).drop (Q.length + 1)
      = natToCodes n ++ [44] := by
    rw [show Q ++ 58 :: (natToCodes n ++ [44]) = (Q ++ [58]) ++ (natToCodes n ++ [44]) by simp,
      show Q.length + 1 = (Q ++ [58]).length by simp]
    exact List.drop_left _ _
  have hcomma : findSub [44] (natToCodes n ++ [44]) = some (natToCodes n).length := by
    rw [findSub_single_right _ _
      (findSub_none_of_missing (List.mem_singleton_self 44) (not_mem_natToCodes (by omega)))]
    rw [show findSub ([44] : List Nat) [44] = some 0 from by decide]
    simp
  have hfc : findCharFrom 44 (Q.length + 1) (Q ++ 58 :: (natToCodes n ++ [44]))
      = some ((natToCodes n).length + (Q.length + 1)) := by
    rw [findCharFrom, hdrop, hcomma]
    rfl
  rw [fieldNumValue, hcolon]
  simp only [hfc]
  rw [hdrop, show (natToCodes n).length + (Q.length + 1) - (Q.length + 1)
      = (natToCodes n).length from by omega, List.take_left]
  exact parseNat_natToCodes n

theorem fieldIntValue_eval (Q : List Nat) (i : Int) (hq : findSub [58] Q = none) :
    fieldIntValue (Q ++ 58 :: (intToCodes i ++ [44])) = i := by
  have hcolon : findSub [58] (Q ++ 58 :: (intToCodes i ++ [44])) = some Q.length := by
    rw [findSub_single_right Q _ hq,
      show (58 : Nat) :: (intToCodes i ++ [44]) = [58] ++ (intToCodes i ++ [44]) from rfl,
      findSub_self_append [58] _ (by decide)]
    simp
  have hdrop : (Q ++ 58 :: (intToCodes i ++ [44])).drop (Q.length + 1)
      = intToCodes i ++ [44] := by
    rw [show Q ++ 58 :: (intToCodes i ++ [44]) = (Q ++ [58]) ++ (intToCodes i ++ [44]) by simp,
      show Q.length + 1 = (Q ++ [58]).length by simp]
    exact List.drop_left _ _
  have hcomma : findSub [44] (intToCodes i ++ [44]) = some (intToCodes i).length := by
    rw [findSub_single_right _ _
      (findSub_none_of_missing (List.mem_singleton_self 44)
        (not_mem_intToCodes ⟨by omega, by omega⟩))]
    rw [show findSub ([44] : List Nat) [44] = some 0 from by decide]
    simp
  have hfc : findCharFrom 44 (Q.length + 1) (Q ++ 58 :: (intToCodes i ++ [44]))
      = some ((intToCodes i).length + (Q.length + 1)) := by
    rw [findCharFrom, hdrop, hcomma]
    rfl
  rw [fieldIntValue, hcolon]
  simp only [hfc]
  rw [hdrop, show (intToCodes i).length + (Q.length + 1) - (Q.length + 1)
      = (intToCodes i).length from by omega, List.take_left]
  exact parseInt_intToCodes i

theorem fieldTimeValue_eval (Q : List Nat) (t : Nat) (S : List Nat)
    (hq58 : findSub [58] Q = none) :
    fieldTimeValue (Q ++ 58 :: 34 :: (natToCodes t ++ 34 :: S)) = t := by
  have hcolon : findSub [58] (Q ++ 58 :: 34 :: (natToCodes t ++ 34 :: S)) = some Q.length := by
    rw [findSub_single_right Q _ hq58,
      show (58 : Nat) :: 34 :: (natToCodes t ++ 34 :: S)
        = [58] ++ (34 :: (natToCodes t ++ 34 :: S)) from rfl,
      findSub_self_append [58] _ (by decide)]
    simp
  have hdropc : (Q ++ 58 :: 34 :: (natToCodes t ++ 34 :: S)).drop Q.length
      = 58 :: 34 :: (natToCodes t ++ 34 :: S) := by
    rw [show Q ++ 58 :: 34 :: (natToCodes t ++ 34 :: S)
        = Q ++ (58 :: 34 :: (natToCodes t ++ 34 :: S)) from rfl]
    exact List.drop_left _ _
  have hq1 : findCharFrom 34 Q.length (Q ++ 58 :: 34 :: (natToCodes t ++ 34 :: S))
      = some (1 + Q.length) := by
    rw [findCharFrom, hdropc]
    rw [show (58 : Nat) :: 34 :: (natToCodes t ++ 34 :: S)
        = [58] ++ (34 :: (natToCodes t ++ 34 :: S)) from rfl]
    rw [findSub_single_right [58] _ (by decide)]
    rw [show (34 : Nat) :: (natToCodes t ++ 34 :: S)
        = [34] ++ (natToCodes t ++ 34 :: S) from rfl,
      findSub_self_append [34] _ (by decide)]
    rfl
  have hdrop2 : (Q ++ 58 :: 34 :: (natToCodes t ++ 34 :: S)).drop (1 + Q.length + 1)
      = natToCodes t ++ 34 :: S := by
    rw [show Q ++ 58 :: 34 :: (natToCodes t ++ 34 :: S)
        = (Q ++ [58, 34]) ++ (natToCodes t ++ 34 :: S) by simp,
      show 1 + Q.length + 1 = (Q ++ [58, 34]).length by simp; omega]
    exact List.drop_left _ _
  have hq2 : findCharFrom 34 (1 + Q.length + 1) (Q ++ 58 :: 34 :: (natToCodes t ++ 34 :: S))
      = some ((natToCodes t).length + (1 + Q.length + 1)) := by
    rw [findCharFrom, hdrop2]
    rw [findSub_single_right _ _
      (findSub_none_of_missing (List.mem_singleton_self 34) (not_mem_natToCodes (by omega)))]
    rw [show (34 : Nat) :: S = [34] ++ S from rfl, findSub_self_append [34] _ (by decide)]
    simp
  rw [fieldTimeValue, hcolon]
  simp only [hq1, hq2, Option.getD_some]
  rw [hdrop2, show (natToCodes t).length + (1 + Q.length + 1) - (1 + Q.length + 1)
      = (natToCodes t).length from by omega, List.take_left]
  rw [if_neg (by simpa [List.isEmpty_iff] using natToCodes_ne_nil t)]
  exact parseNat_natToCodes t

theorem not_mem_shape {c : Nat} {Q T : List Nat} {n : Nat} (hQ : c ∉ Q)
    (hd : c < 48 ∨ 57 < c) (hT : c ∉ T) : c ∉ Q ++ (natToCodes n ++ T) := by
  simp only [List.mem_append, not_or]
  exact ⟨hQ, not_mem_natToCodes hd, hT⟩

theorem not_mem_shape_int {c : Nat} {Q T : List Nat} {i : Int} (hQ : c ∉ Q)
    (hd : c < 48 ∨ 57 < c) (h45 : c ≠ 45) (hT : c ∉ T) : c ∉ Q ++ (intToCodes i ++ T) := by
  simp only [List.mem_append, not_or]
  exact ⟨hQ, not_mem_intToCodes ⟨hd, h45⟩, hT⟩

theorem findSub_none_shape {p Q T : List Nat} {n : Nat} (c : Nat) (hc : c ∈ p)
    (hQ : c ∉ Q) (hd : c < 48 ∨ 57 < c) (hT : c ∉ T) :
    findSub p (Q ++ (natToCodes n ++ T)) = none :=
  findSub_none_of_missing hc (not_mem_shape hQ hd hT)

theorem findSub_none_shape_int {p Q T : List Nat} {i : Int} (c : Nat) (hc : c ∈ p)
    (hQ : c ∉ Q) (hd : c < 48 ∨ 57 < c) (h45 : c ≠ 45) (hT : c ∉ T) :
    findSub p (Q ++ (intToCodes i ++ T)) = none :=
  findSub_none_of_missing hc (not_mem_shape_int hQ hd h45 hT)

theorem shape_ne {Q T l2 : List Nat} {n : Nat} (c : Nat) (hc : c ∈ l2)
    (hQ : c ∉ Q) (hd : c < 48 ∨ 57 < c) (hT : c ∉ T) :
    Q ++ (natToCodes n ++ T) ≠ l2 :=
  fun he => not_mem_shape hQ hd hT (he ▸ hc)

theorem shape_ne_int {Q T l2 : List Nat} {i : Int} (c : Nat) (hc : c ∈ l2)
    (hQ : c ∉ Q) (hd : c < 48 ∨ 57 < c) (h45 : c ≠ 45) (hT : c ∉ T) :
    Q ++ (intToCodes i ++ T) ≠ l2 :=
  fun he => not_mem_shape_int hQ hd h45 hT (he ▸ hc)

theorem removeWs_line_nat (A B : List Nat) (n : Nat) :
    removeWs (A ++ natToCodes n ++ B) = removeWs A ++ (natToCodes n ++ removeWs B) := by
  rw [List.append_assoc, removeWs_append, removeWs_append, removeWs_natToCodes]

theorem removeWs_line_int (A B : List Nat) (i : Int) :
    removeWs (A ++ intToCodes i ++ B) = removeWs A ++ (intToCodes i ++ removeWs B) := by
  rw [List.append_assoc, removeWs_append, removeWs_append, removeWs_intToCodes]

theorem findSub_pat_isSome (p rest : List Nat) (hp : p ≠ []) :
    (findSub p (p ++ rest)).isSome = true := by
  rw [findSub_self_append _ _ hp]
  rfl

theorem applyStateLine_neutral (g : GeneratorState) (raw : List Nat)
    (h1 : findSub patNextBlockToGenerate (removeWs raw) = none)
    (h2 : findSub patOldestTrackedBlock (removeWs raw) = none)
    (h3 : findSub patTotalBlocksGenerated (removeWs raw) = none)
    (h4 : findSub patTotalBlocksCompleted (removeWs raw) = none)
    (h5 : findSub patIsComplete (removeWs raw) = none) :
    applyStateLine g raw = g := by
  rw [applyStateLine]
  simp [h1, h2, h3, h4, h5]

theorem applyStateLine_next (g : GeneratorState) (n : Nat) :
    applyStateLine g (strCodes "    \"nextBlockToGenerate\": " ++ natToCodes n ++ strCodes ",")
      = { g with nextBlockToGenerate := n } := by
  have hline : removeWs (strCodes "    \"nextBlockToGenerate\": " ++ natToCodes n ++ strCodes ",")
      = patNextBlockToGenerate ++ (natToCodes n ++ [44]) := by
    rw [removeWs_line_nat,
      show removeWs (strCodes "    \"nextBlockToGenerate\": ") = patNextBlockToGenerate from
        by decide,
      show removeWs (strCodes ",") = [44] from by decide]
  have hpos := findSub_pat_isSome patNextBlockToGenerate (natToCodes n ++ [44]) (by decide)
  have hval : fieldNumValue (patNextBlockToGenerate ++ (natToCodes n ++ [44])) = n := by
    rw [show patNextBlockToGenerate = strCodes "\"nextBlockToGenerate\"" ++ [58] from by decide,
      List.append_assoc]
    exact fieldNumValue_eval _ n (by decide)
  rw [applyStateLine, hline]
  simp [hpos, hval]

theorem applyStateLine_oldest (g : GeneratorState) (n : Nat) :
    applyStateLine g (strCodes "    \"oldestTrackedBlock\": " ++ natToCodes n ++ strCodes ",")
      = { g with oldestTrackedBlock := n } := by
  have hline : removeWs (strCodes "    \"oldestTrackedBlock\": " ++ natToCodes n ++ strCodes ",")
      = patOldestTrackedBlock ++ (natToCodes n ++ [44]) := by
    rw [removeWs_line_nat,
      show removeWs (strCodes "    \"oldestTrackedBlock\": ") = patOldestTrackedBlock from
        by decide,
      show removeWs (strCodes ",") = [44] from by decide]
  have hn1 : findSub patNextBlockToGenerate (patOldestTrackedBlock ++ (natToCodes n ++ [44]))
      = none := findSub_none_shape 120 (by decide) (by decide) (by decide) (by decide)
  have hpos := findSub_pat_isSome patOldestTrackedBlock (natToCodes n ++ [44]) (by decide)
  have hval : fieldNumValue (patOldestTrackedBlock ++ (natToCodes n ++ [44])) = n := by
    rw [show patOldestTrackedBlock = strCodes "\"oldestTrackedBlock\"" ++ [58] from by decide,
      List.append_assoc]
    exact fieldNumValue_eval _ n (by decide)
  rw [applyStateLine, hline]
  simp [hn1, hpos, hval]

theorem applyStateLine_totalGen (g : GeneratorState) (n : Nat) :
    applyStateLine g (strCodes "    \"totalBlocksGenerated\": " ++ natToCodes n ++ strCodes ",")
      = { g with totalBlocksGenerated := n } := by
  have hline : removeWs
        (strCodes "    \"totalBlocksGenerated\": " ++ natToCodes n ++ strCodes ",")
      = patTotalBlocksGenerated ++ (natToCodes n ++ [44]) := by
    rw [removeWs_line_nat,
      show removeWs (strCodes "    \"totalBlocksGenerated\": ") = patTotalBlocksGenerated from
        by decide,
      show removeWs (strCodes ",") = [44] from by decide]
  have hn1 : findSub patNextBlockToGenerate (patTotalBlocksGenerated ++ (natToCodes n ++ [44]))
      = none := findSub_none_shape 120 (by decide) (by decide) (by decide) (by decide)
  have hn2 : findSub patOldestTrackedBlock (patTotalBlocksGenerated ++ (natToCodes n ++ [44]))
      = none := findSub_none_shape 84 (by decide) (by decide) (by decide) (by decide)
  have hpos := findSub_pat_isSome patTotalBlocksGenerated (natToCodes n ++ [44]) (by decide)
  have hval : fieldNumValue (patTotalBlocksGenerated ++ (natToCodes n ++ [44])) = n := by
    rw [show patTotalBlocksGenerated = strCodes "\"totalBlocksGenerated\"" ++ [58] from by decide,
      List.append_assoc]
    exact fieldNumValue_eval _ n (by decide)
  rw [applyStateLine, hline]
  simp [hn1, hn2, hpos, hval]

theorem applyStateLine_totalComp (g : GeneratorState) (n : Nat) :
    applyStateLine g (strCodes "    \"totalBlocksCompleted\": " ++ natToCodes n ++ strCodes ",")
      = { g with totalBlocksCompleted := n } := by
  have hline : removeWs
        (strCodes "    \"totalBlocksCompleted\": " ++ natToCodes n ++ strCodes ",")
      = patTotalBlocksCompleted ++ (natToCodes n ++ [44]) := by
    rw [removeWs_line_nat,
      show removeWs (strCodes "    \"totalBlocksCompleted\": ") = patTotalBlocksCompleted from
        by decide,
      show removeWs (strCodes ",") = [44] from by decide]
  have hn1 : findSub patNextBlockToGenerate (patTotalBlocksCompleted ++ (natToCodes n ++ [44]))
      = none := findSub_none_shape 120 (by decide) (by decide) (by decide) (by decide)
  have hn2 : findSub patOldestTrackedBlock (patTotalBlocksCompleted ++ (natToCodes n ++ [44]))
      = none := findSub_none_shape 84 (by decide) (by decide) (by decide) (by decide)
  have hn3 : findSub patTotalBlocksGenerated (patTotalBlocksCompleted ++ (natToCodes n ++ [44]))
      = none := findSub_none_shape 71 (by decide) (by decide) (by decide) (by decide)
  have hpos := findSub_pat_isSome patTotalBlocksCompleted (natToCodes n ++ [44]) (by decide)
  have hval : fieldNumValue (patTotalBlocksCompleted ++ (natToCodes n ++ [44])) = n := by
    rw [show patTotalBlocksCompleted = strCodes "\"totalBlocksCompleted\"" ++ [58] from by decide,
      List.append_assoc]
    exact fieldNumValue_eval _ n (by decide)
  rw [applyStateLine, hline]
  simp [hn1, hn2, hn3, hpos, hval]

theorem applyStateLine_isComplete (g : GeneratorState) (b : Bool) :
    applyStateLine g (strCodes "    \"isComplete\": " ++ (if b then patTrue else strCodes "false"))
      = { g with isComplete := b } := by
  cases b <;> rfl

theorem findSub_none_removeWs_nat {p : List Nat} (A B : List Nat) (n : Nat) (c : Nat)
    (hc : c ∈ p) (hQ : c ∉ removeWs A) (hd : c < 48 ∨ 57 < c) (hT : c ∉ removeWs B) :
    findSub p (removeWs (A ++ natToCodes n ++ B)) = none := by
  rw [removeWs_line_nat]
  exact findSub_none_of_missing hc (not_mem_shape hQ hd hT)

theorem findSub_none_removeWs_int {p : List Nat} (A B : List Nat) (i : Int) (c : Nat)
    (hc : c ∈ p) (hQ : c ∉ removeWs A) (hd : c < 48 ∨ 57 < c) (h45 : c ≠ 45)
    (hT : c ∉ removeWs B) :
    findSub p (removeWs (A ++ intToCodes i ++ B)) = none := by
  rw [removeWs_line_int]
  exact findSub_none_of_missing hc (not_mem_shape_int hQ hd h45 hT)

theorem findSub_none_removeWs_nat0 {p : List Nat} (A : List Nat) (n : Nat) (c : Nat)
    (hc : c ∈ p) (hQ : c ∉ removeWs A) (hd : c < 48 ∨ 57 < c) :
    findSub p (removeWs (A ++ natToCodes n)) = none := by
  rw [removeWs_append, removeWs_natToCodes]
  refine findSub_none_of_missing hc ?_
  simp only [List.mem_append, not_or]
  exact ⟨hQ, not_mem_natToCodes hd⟩

theorem stateNeutral_open (g : GeneratorState) : applyStateLine g (strCodes "\x7b") = g := rfl

theorem stateNeutral_genState (g : GeneratorState) :
    applyStateLine g (strCodes "  \"generator_state\": \x7b") = g := rfl

theorem stateNeutral_closeComma (g : GeneratorState) :
    applyStateLine g (strCodes "  \x7d,") = g := rfl

theorem stateNeutral_blockWindow (g : GeneratorState) :
    applyStateLine g (strCodes "  \"block_window\": [") = g := rfl

theorem stateNeutral_closeArr (g : GeneratorState) :
    applyStateLine g (strCodes "  ],") = g := rfl

theorem stateNeutral_config (g : GeneratorState) :
    applyStateLine g (strCodes "  \"config\": \x7b") = g := rfl

theorem stateNeutral_close2 (g : GeneratorState) :
    applyStateLine g (strCodes "  \x7d") = g := rfl

theorem stateNeutral_close1 (g : GeneratorState) :
    applyStateLine g (strCodes "\x7d") = g := rfl

theorem stateNeutral_bOpen (g : GeneratorState) :
    applyStateLine g (strCodes "    \x7b") = g := rfl

theorem stateNeutral_bClose (g : GeneratorState) :
    applyStateLine g (strCodes "    \x7d") = g := rfl

theorem stateNeutral_bCloseComma (g : GeneratorState) :
    applyStateLine g (strCodes "    \x7d,") = g := rfl

theorem stateNeutral_bState (g : GeneratorState) (s : BlockState) :
    applyStateLine g (strCodes "      \"state\": \"" ++ blockStateToCodes s ++ strCodes "\",")
      = g := by
  cases s <;> rfl

theorem stateNeutral_bIndex (g : GeneratorState) (n : Nat) :
    applyStateLine g (strCodes "      \"blockIndex\": " ++ natToCodes n ++ strCodes ",") = g :=
  applyStateLine_neutral g _
    (findSub_none_removeWs_nat _ _ _ 84 (by decide) (by decide) (by decide) (by decide))
    (findSub_none_removeWs_nat _ _ _ 84 (by decide) (by decide) (by decide) (by decide))
    (findSub_none_removeWs_nat _ _ _ 71 (by decide) (by decide) (by decide) (by decide))
    (findSub_none_removeWs_nat _ _ _ 67 (by decide) (by decide) (by decide) (by decide))
    (findSub_none_removeWs_nat _ _ _ 67 (by decide) (by decide) (by decide) (by decide))

theorem stateNeutral_bThread (g : GeneratorState) (i : Int) :
    applyStateLine g
        (strCodes "      \"assignedThreadId\": " ++ intToCodes i ++ strCodes ",") = g :=
  applyStateLine_neutral g _
    (findSub_none_removeWs_int _ _ _ 120 (by decide) (by decide) (by decide) (by decide)
      (by decide))
    (findSub_none_removeWs_int _ _ _ 107 (by decide) (by decide) (by decide) (by decide)
      (by decide))
    (findSub_none_removeWs_int _ _ _ 111 (by decide) (by decide) (by decide) (by decide)
      (by decide))
    (findSub_none_removeWs_int _ _ _ 111 (by decide) (by decide) (by decide) (by decide)
      (by decide))
    (findSub_none_removeWs_int _ _ _ 67 (by decide) (by decide) (by decide) (by decide)
      (by decide))

theorem stateNeutral_bTime (g : GeneratorState) (t : Nat) :
    applyStateLine g
        (strCodes "      \"assignedTime\": \"" ++ natToCodes t ++ strCodes "\",") = g :=
  applyStateLine_neutral g _
    (findSub_none_removeWs_nat _ _ _ 120 (by decide) (by decide) (by decide) (by decide))
    (findSub_none_removeWs_nat _ _ _ 107 (by decide) (by decide) (by decide) (by decide))
    (findSub_none_removeWs_nat _ _ _ 111 (by decide) (by decide) (by decide) (by decide))
    (findSub_none_removeWs_nat _ _ _ 111 (by decide) (by decide) (by decide) (by decide))
    (findSub_none_removeWs_nat _ _ _ 67 (by decide) (by decide) (by decide) (by decide))

theorem stateNeutral_bCompTime (g : GeneratorState) (t : Nat) :
    applyStateLine g
        (strCodes "      \"completedTime\": \"" ++ natToCodes t ++ strCodes "\"") = g :=
  applyStateLine_neutral g _
    (findSub_none_removeWs_nat _ _ _ 120 (by decide) (by decide) (by decide) (by decide))
    (findSub_none_removeWs_nat _ _ _ 107 (by decide) (by decide) (by decide) (by decide))
    (findSub_none_removeWs_nat _ _ _ 71 (by decide) (by decide) (by decide) (by decide))
    (findSub_none_removeWs_nat _ _ _ 97 (by decide) (by decide) (by decide) (by decide))
    (findSub_none_removeWs_nat _ _ _ 115 (by decide) (by decide) (by decide) (by decide))

theorem stateNeutral_blockSize (g : GeneratorState) (n : Nat) :
    applyStateLine g (strCodes "    \"blockSize\": " ++ natToCodes n) = g :=
  applyStateLine_neutral g _
    (findSub_none_removeWs_nat0 _ _ 120 (by decide) (by decide) (by decide))
    (findSub_none_removeWs_nat0 _ _ 84 (by decide) (by decide) (by decide))
    (findSub_none_removeWs_nat0 _ _ 71 (by decide) (by decide) (by decide))
    (findSub_none_removeWs_nat0 _ _ 67 (by decide) (by decide) (by decide))
    (findSub_none_removeWs_nat0 _ _ 67 (by decide) (by decide) (by decide))

theorem foldl_blockLines_state (g : GeneratorState) (b : BlockInfo) (isLast : Bool) :
    List.foldl applyStateLine g (blockLines b isLast) = g := by
  rw [blockLines]
  cases isLast
  · rw [show (if (false : Bool) then strCodes "    \x7d" else strCodes "    \x7d,")
        = strCodes "    \x7d," from rfl]
    simp only [List.foldl_cons, List.foldl_nil, stateNeutral_bOpen, stateNeutral_bIndex,
      stateNeutral_bState, stateNeutral_bThread, stateNeutral_bTime, stateNeutral_bCompTime,
      stateNeutral_bCloseComma]
  · rw [show (if (true : Bool) then strCodes "    \x7d" else strCodes "    \x7d,")
        = strCodes "    \x7d" from rfl]
    simp only [List.foldl_cons, List.foldl_nil, stateNeutral_bOpen, stateNeutral_bIndex,
      stateNeutral_bState, stateNeutral_bThread, stateNeutral_bTime, stateNeutral_bCompTime,
      stateNeutral_bClose]

theorem foldl_windowLines_state (w : List BlockInfo) :
    ∀ g : GeneratorState, List.foldl applyStateLine g (windowLines w) = g := by
  induction w with
  | nil => intro g; rfl
  | cons b t ih =>
    intro g
    cases t with
    | nil => exact foldl_blockLines_state g b true
    | cons c u =>
      rw [show windowLines (b :: c :: u) = blockLines b false ++ windowLines (c :: u) from rfl,
        List.foldl_append, foldl_blockLines_state]
      exact ih g

theorem loadGeneratorState_saveLines (st : GeneratorState) (w : List BlockInfo) (bs : Nat) :
    loadGeneratorState (saveLines st w bs) = st := by
  rw [loadGeneratorState, saveLines, List.foldl_append, List.foldl_append,
    foldl_windowLines_state]
  simp only [List.foldl_cons, List.foldl_nil, stateNeutral_open, stateNeutral_genState,
    applyStateLine_next, applyStateLine_oldest, applyStateLine_totalGen, applyStateLine_totalComp,
    applyStateLine_isComplete, stateNeutral_closeComma, stateNeutral_blockWindow,
    stateNeutral_closeArr, stateNeutral_config, stateNeutral_blockSize, stateNeutral_close2,
    stateNeutral_close1]

theorem loadWindowLoop_pre (raw : List Nat) (rest : List (List Nat)) (cur : BlockInfo)
    (acc : List BlockInfo) (h : findSub patBlockWindow (removeWs raw) = none) :
    loadWindowLoop (raw :: rest) false false cur acc
      = loadWindowLoop rest false false cur acc := by
  rw [loadWindowLoop]
  simp [h]

theorem wstep_pre_open (rest : List (List Nat)) (cur : BlockInfo) (acc : List BlockInfo) :
    loadWindowLoop (strCodes "\x7b" :: rest) false false cur acc
      = loadWindowLoop rest false false cur acc := rfl

theorem wstep_pre_genState (rest : List (List Nat)) (cur : BlockInfo) (acc : List BlockInfo) :
    loadWindowLoop (strCodes "  \"generator_state\": \x7b" :: rest) false false cur acc
      = loadWindowLoop rest false false cur acc := rfl

theorem wstep_pre_closeComma (rest : List (List Nat)) (cur : BlockInfo) (acc : List BlockInfo) :
    loadWindowLoop (strCodes "  \x7d," :: rest) false false cur acc
      = loadWindowLoop rest false false cur acc := rfl

theorem wstep_enter (rest : List (List Nat)) (cur : BlockInfo) (acc : List BlockInfo) :
    loadWindowLoop (strCodes "  \"block_window\": [" :: rest) false false cur acc
      = loadWindowLoop rest true false cur acc := rfl

theorem wstep_break (rest : List (List Nat)) (cur : BlockInfo) (acc : List BlockInfo) :
    loadWindowLoop (strCodes "  ]," :: rest) true false cur acc = acc := rfl

theorem wstep_open (rest : List (List Nat)) (cur : BlockInfo) (acc : List BlockInfo) :
    loadWindowLoop (strCodes "    \x7b" :: rest) true false cur acc
      = loadWindowLoop rest true true blockInfoDefault acc := rfl

theorem wstep_close (rest : List (List Nat)) (cur : BlockInfo) (acc : List BlockInfo) :
    loadWindowLoop (strCodes "    \x7d" :: rest) true true cur acc
      = loadWindowLoop rest true false cur (acc ++ [cur]) := rfl

theorem wstep_closeComma (rest : List (List Nat)) (cur : BlockInfo) (acc : List BlockInfo) :
    loadWindowLoop (strCodes "    \x7d," :: rest) true true cur acc
      = loadWindowLoop rest true false cur (acc ++ [cur]) := rfl

theorem wstep_state (s : BlockState) (rest : List (List Nat)) (cur : BlockInfo)
    (acc : List BlockInfo) :
    loadWindowLoop
        ((strCodes "      \"state\": \"" ++ blockStateToCodes s ++ strCodes "\",") :: rest)
        true true cur acc
      = loadWindowLoop rest true true { cur with state := s } acc := by
  cases s <;> rfl

theorem wstep_index (n : Nat) (rest : List (List Nat)) (cur : BlockInfo)
    (acc : List BlockInfo) :
    loadWindowLoop ((strCodes "      \"blockIndex\": " ++ natToCodes n ++ strCodes ",") :: rest)
        true true cur acc
      = loadWindowLoop rest true true { cur with blockIndex := n } acc := by
  have hline : removeWs (strCodes "      \"blockIndex\": " ++ natToCodes n ++ strCodes ",")
      = patBlockIndex ++ (natToCodes n ++ [44]) := by
    rw [removeWs_line_nat,
      show removeWs (strCodes "      \"blockIndex\": ") = patBlockIndex from by decide,
      show removeWs (strCodes ",") = [44] from by decide]
  have hw : findSub patBlockWindow (patBlockIndex ++ (natToCodes n ++ [44])) = none :=
    findSub_none_shape 119 (by decide) (by decide) (by decide) (by decide)
  have hne1 : patBlockIndex ++ (natToCodes n ++ [44]) ≠ strCodes "\x7b" :=
    shape_ne 123 (by decide) (by decide) (by decide) (by decide)
  have hpos := findSub_pat_isSome patBlockIndex (natToCodes n ++ [44]) (by decide)
  have hval : fieldNumValue (patBlockIndex ++ (natToCodes n ++ [44])) = n := by
    rw [show patBlockIndex = strCodes "\"blockIndex\"" ++ [58] from by decide, List.append_assoc]
    exact fieldNumValue_eval _ n (by decide)
  have hne2 : patBlockIndex ++ (natToCodes n ++ [44]) ≠ strCodes "\x7d" :=
    shape_ne 125 (by decide) (by decide) (by decide) (by decide)
  have hne3 : patBlockIndex ++ (natToCodes n ++ [44]) ≠ strCodes "\x7d," :=
    shape_ne 125 (by decide) (by decide) (by decide) (by decide)
  have hne4 : patBlockIndex ++ (natToCodes n ++ [44]) ≠ strCodes "]," :=
    shape_ne 93 (by decide) (by decide) (by decide) (by decide)
  rw [loadWindowLoop, hline]
  simp [hw, hne1, hpos, hval, hne2, hne3, hne4]

theorem wstep_thread (i : Int) (rest : List (List Nat)) (cur : BlockInfo)
    (acc : List BlockInfo) :
    loadWindowLoop
        ((strCodes "      \"assignedThreadId\": " ++ intToCodes i ++ strCodes ",") :: rest)
        true true cur acc
      = loadWindowLoop rest true true { cur with assignedThreadId := i } acc := by
  have hline : removeWs (strCodes "      \"assignedThreadId\": " ++ intToCodes i ++ strCodes ",")
      = patAssignedThreadId ++ (intToCodes i ++ [44]) := by
    rw [removeWs_line_int,
      show removeWs (strCodes "      \"assignedThreadId\": ") = patAssignedThreadId from
        by decide,
      show removeWs (strCodes ",") = [44] from by decide]
  have hw : findSub patBlockWindow (patAssignedThreadId ++ (intToCodes i ++ [44])) = none :=
    findSub_none_shape_int 119 (by decide) (by decide) (by decide) (by decide) (by decide)
  have hne1 : patAssignedThreadId ++ (intToCodes i ++ [44]) ≠ strCodes "\x7b" :=
    shape_ne_int 123 (by decide) (by decide) (by decide) (by decide) (by decide)
  have hb : findSub patBlockIndex (patAssignedThreadId ++ (intToCodes i ++ [44])) = none :=
    findSub_none_shape_int 120 (by decide) (by decide) (by decide) (by decide) (by decide)
  have hs : findSub patState (patAssignedThreadId ++ (intToCodes i ++ [44])) = none :=
    findSub_none_shape_int 116 (by decide) (by decide) (by decide) (by decide) (by decide)
  have hpos := findSub_pat_isSome patAssignedThreadId (intToCodes i ++ [44]) (by decide)
  have hval : fieldIntValue (patAssignedThreadId ++ (intToCodes i ++ [44])) = i := by
    rw [show patAssignedThreadId = strCodes "\"assignedThreadId\"" ++ [58] from by decide,
      List.append_assoc]
    exact fieldIntValue_eval _ i (by decide)
  have hne2 : patAssignedThreadId ++ (intToCodes i ++ [44]) ≠ strCodes "\x7d" :=
    shape_ne_int 125 (by decide) (by decide) (by decide) (by decide) (by decide)
  have hne3 : patAssignedThreadId ++ (intToCodes i ++ [44]) ≠ strCodes "\x7d," :=
    shape_ne_int 125 (by decide) (by decide) (by decide) (by decide) (by decide)
  have hne4 : patAssignedThreadId ++ (intToCodes i ++ [44]) ≠ strCodes "]," :=
    shape_ne_int 93 (by decide) (by decide) (by decide) (by decide) (by decide)
  rw [loadWindowLoop, hline]
  simp [hw, hne1, hb, hs, hpos, hval, hne2, hne3, hne4]

theorem wstep_time (t : Nat) (rest : List (List Nat)) (cur : BlockInfo)
    (acc : List BlockInfo) :
    loadWindowLoop
        ((strCodes "      \"assignedTime\": \"" ++ natToCodes t ++ strCodes "\",") :: rest)
        true true cur acc
      = loadWindowLoop rest true true { cur with assignedTime := t } acc := by
  have hline : removeWs (strCodes "      \"assignedTime\": \"" ++ natToCodes t ++ strCodes "\",")
      = strCodes "\"assignedTime\":\"" ++ (natToCodes t ++ [34, 44]) := by
    rw [removeWs_line_nat,
      show removeWs (strCodes "      \"assignedTime\": \"") = strCodes "\"assignedTime\":\"" from
        by decide,
      show removeWs (strCodes "\",") = [34, 44] from by decide]
  have hw : findSub patBlockWindow
      (strCodes "\"assignedTime\":\"" ++ (natToCodes t ++ [34, 44])) = none :=
    findSub_none_shape 119 (by decide) (by decide) (by decide) (by decide)
  have hne1 : strCodes "\"assignedTime\":\"" ++ (natToCodes t ++ [34, 44]) ≠ strCodes "\x7b" :=
    shape_ne 123 (by decide) (by decide) (by decide) (by decide)
  have hb : findSub patBlockIndex
      (strCodes "\"assignedTime\":\"" ++ (natToCodes t ++ [34, 44])) = none :=
    findSub_none_shape 120 (by decide) (by decide) (by decide) (by decide)
  have hs : findSub patState
      (strCodes "\"assignedTime\":\"" ++ (natToCodes t ++ [34, 44])) = none :=
    findSub_none_shape 116 (by decide) (by decide) (by decide) (by decide)
  have hth : findSub patAssignedThreadId
      (strCodes "\"assignedTime\":\"" ++ (natToCodes t ++ [34, 44])) = none :=
    findSub_none_shape 104 (by decide) (by decide) (by decide) (by decide)
  have hpos : (findSub patAssignedTime
      (strCodes "\"assignedTime\":\"" ++ (natToCodes t ++ [34, 44]))).isSome = true := by
    rw [show strCodes "\"assignedTime\":\"" = patAssignedTime ++ [34] from by decide,
      List.append_assoc]
    exact findSub_pat_isSome _ _ (by decide)
  have hval : fieldTimeValue (strCodes "\"assignedTime\":\"" ++ (natToCodes t ++ [34, 44])) = t := by
    rw [show strCodes "\"assignedTime\":\"" = strCodes "\"assignedTime\"" ++ [58, 34] from
      by decide, List.append_assoc]
    exact fieldTimeValue_eval _ t [44] (by decide)
  have hne2 : strCodes "\"assignedTime\":\"" ++ (natToCodes t ++ [34, 44]) ≠ strCodes "\x7d" :=
    shape_ne 125 (by decide) (by decide) (by decide) (by decide)
  have hne3 : strCodes "\"assignedTime\":\"" ++ (natToCodes t ++ [34, 44]) ≠ strCodes "\x7d," :=
    shape_ne 125 (by decide) (by decide) (by decide) (by decide)
  have hne4 : strCodes "\"assignedTime\":\"" ++ (natToCodes t ++ [34, 44]) ≠ strCodes "]," :=
    shape_ne 93 (by decide) (by decide) (by decide) (by decide)
  rw [loadWindowLoop, hline]
  simp [hw, hne1, hb, hs, hth, hpos, hval, hne2, hne3, hne4]

theorem wstep_compTime (t : Nat) (rest : List (List Nat)) (cur : BlockInfo)
    (acc : List BlockInfo) :
    loadWindowLoop
        ((strCodes "      \"completedTime\": \"" ++ natToCodes t ++ strCodes "\"") :: rest)
        true true cur acc
      = loadWindowLoop rest true true { cur with completedTime := t } acc := by
  have hline : removeWs (strCodes "      \"completedTime\": \"" ++ natToCodes t ++ strCodes "\"")
      = strCodes "\"completedTime\":\"" ++ (natToCodes t ++ [34]) := by
    rw [removeWs_line_nat,
      show removeWs (strCodes "      \"completedTime\": \"") = strCodes "\"completedTime\":\"" from
        by decide,
      show removeWs (strCodes "\"") = [34] from by decide]
  have hw : findSub patBlockWindow
      (strCodes "\"completedTime\":\"" ++ (natToCodes t ++ [34])) = none :=
    findSub_none_shape 119 (by decide) (by decide) (by decide) (by decide)
  have hne1 : strCodes "\"completedTime\":\"" ++ (natToCodes t ++ [34]) ≠ strCodes "\x7b" :=
    shape_ne 123 (by decide) (by decide) (by decide) (by decide)
  have hb : findSub patBlockIndex
      (strCodes "\"completedTime\":\"" ++ (natToCodes t ++ [34])) = none :=
    findSub_none_shape 120 (by decide) (by decide) (by decide) (by decide)
  have hs : findSub patState
      (strCodes "\"completedTime\":\"" ++ (natToCodes t ++ [34])) = none :=
    findSub_none_shape 97 (by decide) (by decide) (by decide) (by decide)
  have hth : findSub patAssignedThreadId
      (strCodes "\"completedTime\":\"" ++ (natToCodes t ++ [34])) = none :=
    findSub_none_shape 104 (by decide) (by decide) (by decide) (by decide)
  have hat : findSub patAssignedTime
      (strCodes "\"completedTime\":\"" ++ (natToCodes t ++ [34])) = none :=
    findSub_none_shape 97 (by decide) (by decide) (by decide) (by decide)
  have hpos : (findSub patCompletedTime
      (strCodes "\"completedTime\":\"" ++ (natToCodes t ++ [34]))).isSome = true := by
    rw [show strCodes "\"completedTime\":\"" = patCompletedTime ++ [34] from by decide,
      List.append_assoc]
    exact findSub_pat_isSome _ _ (by decide)
  have hval : fieldTimeValue (strCodes "\"completedTime\":\"" ++ (natToCodes t ++ [34])) = t := by
    rw [show strCodes "\"completedTime\":\"" = strCodes "\"completedTime\"" ++ [58, 34] from
      by decide, List.append_assoc]
    exact fieldTimeValue_eval _ t [] (by decide)
  have hne2 : strCodes "\"completedTime\":\"" ++ (natToCodes t ++ [34]) ≠ strCodes "\x7d" :=
    shape_ne 125 (by decide) (by decide) (by decide) (by decide)
  have hne3 : strCodes "\"completedTime\":\"" ++ (natToCodes t ++ [34]) ≠ strCodes "\x7d," :=
    shape_ne 125 (by decide) (by decide) (by decide) (by decide)
  have hne4 : strCodes "\"completedTime\":\"" ++ (natToCodes t ++ [34]) ≠ strCodes "]," :=
    shape_ne 93 (by decide) (by decide) (by decide) (by decide)
  rw [loadWindowLoop, hline]
  simp [hw, hne1, hb, hs, hth, hat, hpos, hval, hne2, hne3, hne4]

theorem loadWindowLoop_blockLines (b : BlockInfo) (isLast : Bool) (rest : List (List Nat))
    (cur : BlockInfo) (acc : List BlockInfo) :
    loadWindowLoop (blockLines b isLast ++ rest) true false cur acc
      = loadWindowLoop rest true false b (acc ++ [b]) := by
  rw [blockLines]
  cases isLast
  · rw [show (if (false : Bool) then strCodes "    \x7d" else strCodes "    \x7d,")
        = strCodes "    \x7d," from rfl]
    simp only [List.cons_append, List.nil_append]
    rw [wstep_open, wstep_index, wstep_state, wstep_thread, wstep_time, wstep_compTime,
      wstep_closeComma]
  · rw [show (if (true : Bool) then strCodes "    \x7d" else strCodes "    \x7d,")
        = strCodes "    \x7d" from rfl]
    simp only [List.cons_append, List.nil_append]
    rw [wstep_open, wstep_index, wstep_state, wstep_thread, wstep_time, wstep_compTime,
      wstep_close]

theorem loadWindowLoop_windowLines (rest : List (List Nat)) (w : List BlockInfo) :
    ∀ (cur : BlockInfo) (acc : List BlockInfo),
      loadWindowLoop (windowLines w ++ strCodes "  ]," :: rest) true false cur acc
        = acc ++ w := by
  induction w with
  | nil =>
    intro cur acc
    rw [show windowLines [] = ([] : List (List Nat)) from rfl, List.nil_append, wstep_break,
      List.append_nil]
  | cons b t ih =>
    intro cur acc
    cases t with
    | nil =>
      rw [show windowLines [b] = blockLines b true from rfl, loadWindowLoop_blockLines,
        wstep_break]
    | cons c u =>
      rw [show windowLines (b :: c :: u) = blockLines b false ++ windowLines (c :: u) from rfl,
        List.append_assoc, loadWindowLoop_blockLines, ih]
      simp

theorem loadBlockWindow_saveLines (st : GeneratorState) (w : List BlockInfo) (bs : Nat) :
    loadBlockWindow (saveLines st w bs) = w := by
  have h3 : findSub patBlockWindow (removeWs (strCodes "    \"nextBlockToGenerate\": "
      ++ natToCodes st.nextBlockToGenerate ++ strCodes ",")) = none :=
    findSub_none_removeWs_nat _ _ _ 119 (by decide) (by decide) (by decide) (by decide)
  have h4 : findSub patBlockWindow (removeWs (strCodes "    \"oldestTrackedBlock\": "
      ++ natToCodes st.oldestTrackedBlock ++ strCodes ",")) = none :=
    findSub_none_removeWs_nat _ _ _ 119 (by decide) (by decide) (by decide) (by decide)
  have h5 : findSub patBlockWindow (removeWs (strCodes "    \"totalBlocksGenerated\": "
      ++ natToCodes st.totalBlocksGenerated ++ strCodes ",")) = none :=
    findSub_none_removeWs_nat _ _ _ 119 (by decide) (by decide) (by decide) (by decide)
  have h6 : findSub patBlockWindow (removeWs (strCodes "    \"totalBlocksCompleted\": "
      ++ natToCodes st.totalBlocksCompleted ++ strCodes ",")) = none :=
    findSub_none_removeWs_nat _ _ _ 119 (by decide) (by decide) (by decide) (by decide)
  have h7 : findSub patBlockWindow (removeWs (strCodes "    \"isComplete\": "
      ++ (if st.isComplete then patTrue else strCodes "false"))) = none := by
    cases st.isComplete <;> decide
  rw [loadBlockWindow, saveLines]
  simp only [List.cons_append, List.nil_append]
  rw [wstep_pre_open, wstep_pre_genState, loadWindowLoop_pre _ _ _ _ h3,
    loadWindowLoop_pre _ _ _ _ h4, loadWindowLoop_pre _ _ _ _ h5, loadWindowLoop_pre _ _ _ _ h6,
    loadWindowLoop_pre _ _ _ _ h7, wstep_pre_closeComma, wstep_enter,
    loadWindowLoop_windowLines]
  exact List.nil_append w

set_option maxHeartbeats 1600000 in
/-- C3: scheduler durability.  Writing the scheduler state with
`saveStateToJson` (`saveLines`) and loading the same file back the way the
`MappingGenerator` constructor does (`loadStateFromJson` followed by
`loadPendingBlocksFromState`, i.e. `loadScheduler`) yields an equivalent
state: `nextBlockToGenerate`, `oldestTrackedBlock`, `totalBlocksGenerated`,
`totalBlocksCompleted` and `isComplete` are all preserved (the whole
generator state is recovered exactly), the block window is preserved
block-by-block in order (each block keeps its `blockIndex` and its
PENDING/COMPLETED state), and after the load every PENDING block of the
window has `assignedThreadId = -1` and `assignedTime = 0`. -/
theorem saveState_loadState_roundtrip (st : GeneratorState) (w : List BlockInfo)
    (blockSize : Nat) :
    (loadScheduler (saveLines st w blockSize)).state = st ∧
    (loadScheduler (saveLines st w blockSize)).blockWindow.map
        (fun b => (b.blockIndex, b.state))
      = w.map (fun b => (b.blockIndex, b.state)) ∧
    ∀ b ∈ (loadScheduler (saveLines st w blockSize)).blockWindow,
      b.state = BlockState.PENDING → b.assignedThreadId = -1 ∧ b.assignedTime = 0 := by
  have hwin : (loadScheduler (saveLines st w blockSize)).blockWindow
      = loadPendingBlocksReset w := by
    rw [show (loadScheduler (saveLines st w blockSize)).blockWindow
        = loadPendingBlocksReset (loadBlockWindow (saveLines st w blockSize)) from rfl,
      loadBlockWindow_saveLines]
  refine ⟨?_, ?_, ?_⟩
  · exact (show (loadScheduler (saveLines st w blockSize)).state
        = loadGeneratorState (saveLines st w blockSize) from rfl).trans
      (loadGeneratorState_saveLines st w blockSize)
  · rw [hwin, loadPendingBlocksReset, List.map_map]
    refine List.map_congr_left fun a _ => ?_
    by_cases h : a.state = BlockState.PENDING <;> simp [h]
  · intro b hb hp
    rw [hwin, loadPendingBlocksReset] at hb
    obtain ⟨a, _, ha⟩ := List.mem_map.mp hb
    by_cases h : a.state = BlockState.PENDING
    · rw [if_pos h] at ha
      rw [← ha]
      exact ⟨rfl, rfl⟩
    · rw [if_neg h] at ha
      rw [← ha] at hp
      exact absurd hp h

end Voynich
